import Mathlib

/-!
# Verification of the streaming patent-grant deserializer (uspto-rs)

Shallow embedding of `src/deserialize.rs` and `src/util.rs`.

The external tokenizer (quick-xml `Reader`) is modelled at its boundary
contract: a pull stream of lexical events.  The event stream is a
`List XmlEvent`; the empty list plays the role of `Event::Eof` (the real
reader keeps returning `Eof` once the input is exhausted).  Each event
carries, besides its parsed content, the raw bytes (`raw`) that
`read_event` appends to the caller-supplied scratch buffer when the event
is read; this models the byte-collection contract the core relies on for
text-block extraction.  Lexical errors are not modelled: every claim under
study concerns lexically valid streams.

Loops in the source that re-read `Eof` forever at end of input (the scan
loop of `deser_top_pi`, the dispatch loop of `deser_biblio`) are modelled
as returning `none` (divergence marker); all other results are `some`.
-/

namespace Uspto

/-- A lexical event of the tokenizer, per the boundary contract (spec 4.1):
declaration, doctype, element start/end, text, processing instruction.
`Event::Eof` is represented by the end of the event list.  Each constructor
carries the raw bytes the tokenizer appends to the scratch buffer when the
event is read. -/
inductive XmlEvent where
  | decl (raw : String)
  | doctype (raw : String)
  | start (name : String) (raw : String)
  | endTag (name : String) (raw : String)
  | text (content : String) (raw : String)
  | pi (content : String) (raw : String)
deriving DecidableEq, Repr

/-- The raw bytes a read of this event appends to the scratch buffer. -/
def XmlEvent.raw : XmlEvent → String
  | .decl r => r
  | .doctype r => r
  | .start _ r => r
  | .endTag _ r => r
  | .text _ r => r
  | .pi _ r => r

/-- `Error::Deser { src }` of the repository (its only variant used by the
deserializer). -/
inductive Error where
  | deser (src : String)
deriving DecidableEq, Repr

/-- Modelled from the spec: `DocumentId` (data model, spec 3); `data.rs` is
not under `src/`.  String fields default to the empty string, the optional
`kind` to `none`, matching `#[derive(Default)]`. -/
structure DocumentId where
  country : String := ""
  doc_number : String := ""
  kind : Option String := none
  date : String := ""
deriving DecidableEq, Repr

/-- Modelled from the spec: `ClassificationLocarno` (spec 3). -/
structure ClassificationLocarno where
  edition : String := ""
  main_classification : String := ""
deriving DecidableEq, Repr

/-- Modelled from the spec: `ClassificationNational` (spec 3):
required `country`, `additional_info`, `main_classification`,
optional `further_classification`. -/
structure ClassificationNational where
  country : String := ""
  additional_info : String := ""
  main_classification : String := ""
  further_classification : Option String := none
deriving DecidableEq, Repr

/-- Modelled from the spec: `BibliographicDataGrant` (spec 3.2). -/
structure BibliographicDataGrant where
  publication_reference : DocumentId := {}
  application_reference : DocumentId := {}
  us_application_series_code : String := ""
  classification_locarno : ClassificationLocarno := {}
  classification_national : ClassificationNational := {}
deriving DecidableEq, Repr

/-- Modelled from the spec: `PatentGrant` (spec 3.1).  `descriptions`
(a `HashMap<String, String>` in the source) is modelled as an association
list with unique keys; insertion overwrites (spec: "a later marker with the
same name overwrites").  `us_claim_statement` is a plain string, as the
source assigns `deser_text`'s result to it directly. -/
structure PatentGrant where
  us_bibliographic_data_grant : BibliographicDataGrant := {}
  descriptions : List (String × String) := []
  us_claim_statement : String := ""
  claims : List String := []
deriving DecidableEq, Repr

/-- `PatentGrant::default()`. -/
def PatentGrant.default : PatentGrant := {}

/-- Map insertion with overwrite, modelling `HashMap::insert`. -/
def insertDesc : List (String × String) → String → String → List (String × String)
  | [], k, v => [(k, v)]
  | (k', v') :: t, k, v =>
      if k' = k then (k, v) :: t else (k', v') :: insertDesc t k v

/-- Map lookup, modelling `HashMap::get`. -/
def lookupDesc (l : List (String × String)) (k : String) : Option String :=
  (l.find? (fun p => p.1 = k)).map (fun p => p.2)

/-- Helper for `splitWhitespace`: accumulates the current word (reversed). -/
def wordsAux : List Char → List Char → List String
  | [], cur => if cur.isEmpty then [] else [String.mk cur.reverse]
  | c :: cs, cur =>
      if c.isWhitespace then
        if cur.isEmpty then wordsAux cs [] else String.mk cur.reverse :: wordsAux cs []
      else wordsAux cs (c :: cur)

/-- Rust's `str::split_whitespace`: splits on runs of whitespace, yielding
no empty words. -/
def splitWhitespace (s : String) : List String := wordsAux s.data []

/-- quick-xml `Reader::read_to_end` at the boundary contract: skip events,
tracking nesting depth of same-named starts, until the matching end tag;
`Eof` is an error (`UnexpectedEof`). -/
def read_to_end (endName : String) (depth : Nat) : List XmlEvent → Except String (List XmlEvent)
  | [] => .error "UnexpectedEof"
  | .endTag n _ :: rest =>
      if n = endName then
        match depth with
        | 0 => .ok rest
        | d + 1 => read_to_end endName d rest
      else read_to_end endName depth rest
  | .start n _ :: rest =>
      if n = endName then read_to_end endName (depth + 1) rest
      else read_to_end endName depth rest
  | _ :: rest => read_to_end endName depth rest

/-- quick-xml `Reader::read_text` at the boundary contract: a text event
followed by skipping to the matching end tag yields the text; an immediate
matching end tag yields the empty string; anything else errors. -/
def read_text (endName : String) : List XmlEvent → Except String String × List XmlEvent
  | .text s _ :: rest =>
      match read_to_end endName 0 rest with
      | .ok rest' => (.ok s, rest')
      | .error e => (.error e, [])
  | .endTag n _ :: rest =>
      if n = endName then (.ok "", rest) else (.error "TextNotFound", rest)
  | [] => (.error "UnexpectedEof", [])
  | _ :: rest => (.error "TextNotFound", rest)

/-- `deser_text` (deserialize.rs:366): wraps `read_text`, converting the
tokenizer error into `Error::Deser`. -/
def deser_text (endName : String) (evs : List XmlEvent) : Except Error String × List XmlEvent :=
  match read_text endName evs with
  | (.ok t, rest) => (.ok t, rest)
  | (.error e, rest) => (.error (.deser e), rest)

/-- Modelled from the spec: `deser_text_from` is called by the field-mapper
macros (util.rs:34,71) but is not defined under `src/`; spec 4.7 says a
matched child's full text content is captured into its slot, mirroring
`deser_text`. -/
def deser_text_from (endName : String) (evs : List XmlEvent) : Except Error String × List XmlEvent :=
  deser_text endName evs

/-- `deser_header` (deserialize.rs:110-126): consume one declaration and
one doctype.  `none` models the Rust `None` (clean end of stream). -/
def deser_header (evs : List XmlEvent) : Option (Except Error Unit) × List XmlEvent :=
  match evs with
  | [] => (none, [])
  | .decl _ :: rest =>
      match rest with
      | [] => (none, [])
      | .doctype _ :: rest2 => (some (.ok ()), rest2)
      | _ :: rest2 =>
          (some (.error (.deser "doctype decl not found at head of patent grant xml")), rest2)
  | _ :: rest =>
      (some (.error (.deser "xml decl not found at head of patent grant xml")), rest)

/-- The scan loop of `deser_top_pi` (deserialize.rs:169-192): read events,
accumulating their raw bytes into `buf` (the append happens inside
`read_event`, hence also for the terminating event), until a processing
instruction whose last whitespace-separated token is `end="tail"`.
At end of input the source re-reads `Eof` forever (`Ok(_) => continue`):
modelled as `none`. -/
def piScan : List XmlEvent → String → Option (Except Error String × List XmlEvent)
  | [], _ => none
  | e :: rest, buf =>
      match e with
      | .pi c2 r =>
          match (splitWhitespace c2).getLast? with
          | none => some (.error (.deser "No end for PI"), rest)
          | some t =>
              if t = "end=\"tail\"" then some (.ok (buf ++ r), rest)
              else piScan rest (buf ++ r)
      | _ => piScan rest (buf ++ XmlEvent.raw e)

/-- `deser_top_pi` (deserialize.rs:143-200): parse the instruction's first
token as the logical name and its last token as the role; skip unless the
role is `end="lead"`; otherwise scan to the next tail marker and store the
accumulated bytes under the name. -/
def deser_top_pi (c : String) (g : PatentGrant) (evs : List XmlEvent) :
    Option (Except Error PatentGrant × List XmlEvent) :=
  match (splitWhitespace c).head? with
  | none => some (.error (.deser "No name for PI"), evs)
  | some name =>
      match (splitWhitespace c).getLast? with
      | none => some (.error (.deser "No end for PI"), evs)
      | some endTok =>
          if endTok = "end=\"lead\"" then
            match piScan evs "" with
            | none => none
            | some (.error e, rest) => some (.error e, rest)
            | some (.ok t, rest) =>
                some (.ok { g with descriptions := insertDesc g.descriptions name t }, rest)
          else some (.ok g, evs)

/-! ## Length bounds on consumed streams (used for termination) -/

theorem read_to_end_length {endName : String} {depth : Nat} {evs rest' : List XmlEvent}
    (h : read_to_end endName depth evs = .ok rest') : rest'.length ≤ evs.length := by
  induction evs generalizing depth with
  | nil => simp [read_to_end] at h
  | cons e tail ih =>
      cases e with
      | endTag n r =>
          simp only [read_to_end] at h
          split at h
          · split at h
            · injection h with h; subst h; simp
            · have := ih h; simp; omega
          · have := ih h; simp; omega
      | start n r =>
          simp only [read_to_end] at h
          split at h
          · have := ih h; simp; omega
          · have := ih h; simp; omega
      | decl r => simp only [read_to_end] at h; have := ih h; simp; omega
      | doctype r => simp only [read_to_end] at h; have := ih h; simp; omega
      | text c r => simp only [read_to_end] at h; have := ih h; simp; omega
      | pi c r => simp only [read_to_end] at h; have := ih h; simp; omega

theorem read_text_length {endName : String} {evs : List XmlEvent} :
    (read_text endName evs).2.length ≤ evs.length := by
  cases evs with
  | nil => simp [read_text]
  | cons e tail =>
      cases e with
      | text c r =>
          simp only [read_text]
          cases h : read_to_end endName 0 tail with
          | ok rest' => have := read_to_end_length h; simp; omega
          | error e => simp
      | endTag n r =>
          simp only [read_text]; split <;> simp
      | decl r => simp only [read_text]; simp
      | doctype r => simp only [read_text]; simp
      | start n r => simp only [read_text]; simp
      | pi c r => simp only [read_text]; simp

theorem deser_text_length {endName : String} {evs : List XmlEvent} :
    (deser_text endName evs).2.length ≤ evs.length := by
  rw [deser_text]
  have h : (read_text endName evs).2.length ≤ evs.length := read_text_length
  split
  case _ t rest heq => rw [heq] at h; exact h
  case _ e rest heq => rw [heq] at h; exact h

theorem deser_text_from_length {endName : String} {evs : List XmlEvent} :
    (deser_text_from endName evs).2.length ≤ evs.length :=
  deser_text_length

/-- `deser_claims` (deserialize.rs:202-233).  Reads an event; a `claim`
start is followed by a further read which, on a `claim-text` start, pushes
the element's text and continues the loop; every other outcome `break`s
(consuming the event read).  `Eof` (empty stream) also hits the
catch-all `break`. -/
def deser_claims (g : PatentGrant) (evs : List XmlEvent) :
    Except Error PatentGrant × List XmlEvent :=
  match evs with
  | .start n _ :: rest =>
      if n = "claim" then
        match rest with
        | .start n2 _ :: rest2 =>
            if n2 = "claim-text" then
              match h : deser_text "claim-text" rest2 with
              | (.ok t, rest3) =>
                  deser_claims { g with claims := g.claims ++ [t] } rest3
              | (.error e, rest3) => (.error e, rest3)
            else (.ok g, rest2)
        | _ :: rest2 => (.ok g, rest2)
        | [] => (.ok g, [])
      else (.ok g, rest)
  | _ :: rest => (.ok g, rest)
  | [] => (.ok g, [])
termination_by evs.length
decreasing_by
  have hl : (deser_text "claim-text" rest2).2.length ≤ rest2.length := deser_text_length
  rw [h] at hl
  simp only [List.length_cons] at *
  omega

theorem deser_claims_length {g : PatentGrant} {evs : List XmlEvent} :
    (deser_claims g evs).2.length ≤ evs.length := by
  induction g, evs using deser_claims.induct with
  | case1 g raw raw1 rest2 t rest3 h ih =>
      rw [deser_claims]
      simp only [String.reduceEq, reduceIte] at *
      split
      next t' rest3' heq =>
        rw [h] at heq
        injection heq with h1 h2
        injection h1 with h1
        subst h1; subst h2
        have hl : (deser_text "claim-text" rest2).2.length ≤ rest2.length := deser_text_length
        rw [h] at hl
        simp only [List.length_cons]
        simp at hl
        omega
      next e rest3' heq =>
        rw [h] at heq
        exact absurd heq (by simp)
  | case2 g raw raw1 rest2 e rest3 h =>
      rw [deser_claims]
      simp only [String.reduceEq, reduceIte] at *
      split
      next t' rest3' heq =>
        rw [h] at heq
        exact absurd heq (by simp)
      next e' rest3' heq =>
        rw [h] at heq
        injection heq with h1 h2
        subst h2
        have hl : (deser_text "claim-text" rest2).2.length ≤ rest2.length := deser_text_length
        rw [h] at hl
        simp only [List.length_cons]
        simp at hl
        omega
  | case3 g raw n2 raw1 rest2 hn2 =>
      rw [deser_claims]
      simp only [String.reduceEq, reduceIte, hn2]
      simp
      omega
  | case4 g raw head rest2 hhead =>
      cases head with
      | start n r => exact (hhead n r rfl).elim
      | decl r => simp [deser_claims]; omega
      | doctype r => simp [deser_claims]; omega
      | endTag n r => simp [deser_claims]; omega
      | text c r => simp [deser_claims]; omega
      | pi c r => simp [deser_claims]; omega
  | case5 g raw =>
      rw [deser_claims]
      simp
  | case6 g n2 raw rest2 hn2 =>
      rw [deser_claims.eq_def]
      split <;> simp_all <;> omega
  | case7 g head rest2 hhead =>
      cases head with
      | start n r => exact (hhead n r rfl).elim
      | decl r => simp [deser_claims]
      | doctype r => simp [deser_claims]
      | endTag n r => simp [deser_claims]
      | text c r => simp [deser_claims]
      | pi c r => simp [deser_claims]
  | case8 g => simp [deser_claims]


/-- The generic field-mapper loop, `parse_struct_update_from!` (util.rs:59-83).
The macro expands per call site into a loop matching child starts against
the required then the optional name list; an unmatched child is a fatal
error naming the element and the container; the container's end tag stops
the loop successfully; a non-matching end tag is skipped; any other event
(`_ => break`, including `Eof`) stops the loop successfully.  The
name-to-slot pairs of the macro invocation are passed as setter lists. -/
def parse_struct_update_from {σ : Type} (container : String)
    (reqF optF : List (String × (σ → String → σ))) (s : σ) (evs : List XmlEvent) :
    Except Error σ × List XmlEvent :=
  match evs with
  | .start n _ :: rest =>
      match reqF.find? (fun p => p.1 = n) with
      | some p =>
          match h : deser_text_from n rest with
          | (.ok t, rest') => parse_struct_update_from container reqF optF (p.2 s t) rest'
          | (.error e, rest') => (.error e, rest')
      | none =>
          match optF.find? (fun p => p.1 = n) with
          | some p =>
              match h2 : deser_text_from n rest with
              | (.ok t, rest') => parse_struct_update_from container reqF optF (p.2 s t) rest'
              | (.error e, rest') => (.error e, rest')
          | none =>
              (.error (.deser ("unrecognized element Ok(\"" ++ n ++ "\") in " ++ container)), rest)
  | .endTag n _ :: rest =>
      if n = container then (.ok s, rest)
      else parse_struct_update_from container reqF optF s rest
  | _ :: rest => (.ok s, rest)
  | [] => (.ok s, [])
termination_by evs.length
decreasing_by
  · have hl : (deser_text_from n rest).2.length ≤ rest.length := deser_text_from_length
    rw [h] at hl
    simp only [List.length_cons] at *
    omega
  · have hl : (deser_text_from n rest).2.length ≤ rest.length := deser_text_from_length
    rw [h2] at hl
    simp only [List.length_cons] at *
    omega
  · simp only [List.length_cons]; omega

/-- The wrapping field mapper, `parse_struct_update!` (util.rs:18-54): first
expects a start tag, which the macro matches against the literal
`document-id`; a different element or a non-start event is a fatal error;
then runs the same inner loop as `parse_struct_update_from!`. -/
def parse_struct_update {σ : Type} (container : String)
    (reqF optF : List (String × (σ → String → σ))) (s : σ) (evs : List XmlEvent) :
    Except Error σ × List XmlEvent :=
  match evs with
  | .start n _ :: rest =>
      if n = "document-id" then parse_struct_update_from container reqF optF s rest
      else (.error (.deser ("found element Ok(\"" ++ n ++ "\"), not " ++ container)), rest)
  | [] => (.error (.deser ("found non-start-element besides " ++ container)), [])
  | _ :: rest => (.error (.deser ("found non-start-element besides " ++ container)), rest)

/-- Required slots of `deser_doc_id` (deserialize.rs:288-307). -/
def docIdReq : List (String × (DocumentId → String → DocumentId)) :=
  [("country", fun d v => { d with country := v }),
   ("doc-number", fun d v => { d with doc_number := v }),
   ("date", fun d v => { d with date := v })]

/-- Optional slots of `deser_doc_id`. -/
def docIdOpt : List (String × (DocumentId → String → DocumentId)) :=
  [("kind", fun d v => { d with kind := some v })]

/-- `deser_doc_id` (deserialize.rs:288-307). -/
def deser_doc_id (d : DocumentId) (evs : List XmlEvent) :
    Except Error DocumentId × List XmlEvent :=
  parse_struct_update "document-id" docIdReq docIdOpt d evs

/-- Required slots of `deser_class_locarno` (deserialize.rs:313-334). -/
def locarnoReq : List (String × (ClassificationLocarno → String → ClassificationLocarno)) :=
  [("edition", fun c v => { c with edition := v }),
   ("main-classification", fun c v => { c with main_classification := v })]

/-- `deser_class_locarno` (deserialize.rs:313-334); no optional slots. -/
def deser_class_locarno (c : ClassificationLocarno) (evs : List XmlEvent) :
    Except Error ClassificationLocarno × List XmlEvent :=
  parse_struct_update_from "classification-locarno" locarnoReq [] c evs

/-- Required slots of `deser_class_national` (deserialize.rs:340-364). -/
def nationalReq : List (String × (ClassificationNational → String → ClassificationNational)) :=
  [("country", fun c v => { c with country := v }),
   ("additional-info", fun c v => { c with additional_info := v }),
   ("main-classification", fun c v => { c with main_classification := v })]

/-- Optional slots of `deser_class_national`. -/
def nationalOpt : List (String × (ClassificationNational → String → ClassificationNational)) :=
  [("further-classification", fun c v => { c with further_classification := some v })]

/-- `deser_class_national` (deserialize.rs:340-364). -/
def deser_class_national (c : ClassificationNational) (evs : List XmlEvent) :
    Except Error ClassificationNational × List XmlEvent :=
  parse_struct_update_from "classification-national" nationalReq nationalOpt c evs

theorem parse_struct_update_from_length {σ : Type} {container : String}
    {reqF optF : List (String × (σ → String → σ))} {s : σ} {evs : List XmlEvent} :
    (parse_struct_update_from container reqF optF s evs).2.length ≤ evs.length := by
  induction s, evs using parse_struct_update_from.induct container reqF optF with
  | case1 s n raw rest p hp t rest3 h ih =>
      rw [parse_struct_update_from]
      simp only [hp]
      split
      next t2 rest4 heq =>
        rw [h] at heq
        injection heq with h1 h2
        injection h1 with h1
        subst h1; subst h2
        have hl : (deser_text_from n rest).2.length ≤ rest.length := deser_text_from_length
        rw [h] at hl
        simp only [List.length_cons]
        simp at hl
        omega
      next e2 rest4 heq =>
        rw [h] at heq
        exact absurd heq (by simp)
  | case2 s n raw rest p hp e rest3 h =>
      rw [parse_struct_update_from]
      simp only [hp]
      split
      next t2 rest4 heq =>
        rw [h] at heq
        exact absurd heq (by simp)
      next e2 rest4 heq =>
        rw [h] at heq
        injection heq with h1 h2
        subst h2
        have hl : (deser_text_from n rest).2.length ≤ rest.length := deser_text_from_length
        rw [h] at hl
        simp only [List.length_cons]
        simp at hl
        omega
  | case3 s n raw rest hreq p hp t rest3 h ih =>
      rw [parse_struct_update_from]
      simp only [hreq, hp]
      split
      next t2 rest4 heq =>
        rw [h] at heq
        injection heq with h1 h2
        injection h1 with h1
        subst h1; subst h2
        have hl : (deser_text_from n rest).2.length ≤ rest.length := deser_text_from_length
        rw [h] at hl
        simp only [List.length_cons]
        simp at hl
        omega
      next e2 rest4 heq =>
        rw [h] at heq
        exact absurd heq (by simp)
  | case4 s n raw rest hreq p hp e rest3 h =>
      rw [parse_struct_update_from]
      simp only [hreq, hp]
      split
      next t2 rest4 heq =>
        rw [h] at heq
        exact absurd heq (by simp)
      next e2 rest4 heq =>
        rw [h] at heq
        injection heq with h1 h2
        subst h2
        have hl : (deser_text_from n rest).2.length ≤ rest.length := deser_text_from_length
        rw [h] at hl
        simp only [List.length_cons]
        simp at hl
        omega
  | case5 s n raw rest hreq hopt =>
      rw [parse_struct_update_from]
      simp only [hreq, hopt]
      simp
  | case6 s raw rest =>
      rw [parse_struct_update_from]
      simp
  | case7 s n raw rest hn ih =>
      rw [parse_struct_update_from]
      simp only [hn, if_false]
      simp only [List.length_cons]
      omega
  | case8 s head rest hs he =>
      cases head with
      | start n r => exact (hs n r rfl).elim
      | endTag n r => exact (he n r rfl).elim
      | decl r => simp [parse_struct_update_from]
      | doctype r => simp [parse_struct_update_from]
      | text c r => simp [parse_struct_update_from]
      | pi c r => simp [parse_struct_update_from]
  | case9 s => simp [parse_struct_update_from]

theorem parse_struct_update_length {σ : Type} {container : String}
    {reqF optF : List (String × (σ → String → σ))} {s : σ} {evs : List XmlEvent} :
    (parse_struct_update container reqF optF s evs).2.length ≤ evs.length := by
  cases evs with
  | nil => simp [parse_struct_update]
  | cons e rest =>
      cases e with
      | start n r =>
          rw [parse_struct_update]
          split
          · have : (parse_struct_update_from container reqF optF s rest).2.length ≤ rest.length :=
              parse_struct_update_from_length
            simp only [List.length_cons]
            omega
          · simp
      | decl r => simp [parse_struct_update]
      | doctype r => simp [parse_struct_update]
      | endTag n r => simp [parse_struct_update]
      | text c r => simp [parse_struct_update]
      | pi c r => simp [parse_struct_update]

theorem deser_doc_id_length {d : DocumentId} {evs : List XmlEvent} :
    (deser_doc_id d evs).2.length ≤ evs.length := parse_struct_update_length

theorem deser_class_locarno_length {c : ClassificationLocarno} {evs : List XmlEvent} :
    (deser_class_locarno c evs).2.length ≤ evs.length := parse_struct_update_from_length

theorem deser_class_national_length {c : ClassificationNational} {evs : List XmlEvent} :
    (deser_class_national c evs).2.length ≤ evs.length := parse_struct_update_from_length

/-- `deser_biblio` (deserialize.rs:236-280): dispatch on child starts of the
bibliographic container; unrecognized starts and all non-start, non-end
events are skipped (`continue`); the loop breaks only on the container's
end tag.  At end of input the source re-reads `Eof` forever
(`Ok(_) => continue`): modelled as `none`. -/
def deser_biblio (b : BibliographicDataGrant) (evs : List XmlEvent) :
    Option (Except Error BibliographicDataGrant × List XmlEvent) :=
  match evs with
  | [] => none
  | .start n _ :: rest =>
      if n = "publication-reference" then
        match h : deser_doc_id b.publication_reference rest with
        | (.ok d, rest') => deser_biblio { b with publication_reference := d } rest'
        | (.error e, rest') => some (.error e, rest')
      else if n = "application-reference" then
        match h : deser_doc_id b.application_reference rest with
        | (.ok d, rest') => deser_biblio { b with application_reference := d } rest'
        | (.error e, rest') => some (.error e, rest')
      else if n = "us-application-series-code" then
        match h : deser_text n rest with
        | (.ok t, rest') => deser_biblio { b with us_application_series_code := t } rest'
        | (.error e, rest') => some (.error e, rest')
      else if n = "classification-locarno" then
        match h : deser_class_locarno b.classification_locarno rest with
        | (.ok c, rest') => deser_biblio { b with classification_locarno := c } rest'
        | (.error e, rest') => some (.error e, rest')
      else if n = "classification-national" then
        match h : deser_class_national b.classification_national rest with
        | (.ok c, rest') => deser_biblio { b with classification_national := c } rest'
        | (.error e, rest') => some (.error e, rest')
      else deser_biblio b rest
  | .endTag n _ :: rest =>
      if n = "us-bibliographic-data-grant" then some (.ok b, rest)
      else deser_biblio b rest
  | _ :: rest => deser_biblio b rest
termination_by evs.length
decreasing_by
  · have hl : (deser_doc_id b.publication_reference rest).2.length ≤ rest.length :=
      deser_doc_id_length
    rw [h] at hl; simp only [List.length_cons] at *; omega
  · have hl : (deser_doc_id b.application_reference rest).2.length ≤ rest.length :=
      deser_doc_id_length
    rw [h] at hl; simp only [List.length_cons] at *; omega
  · have hl : (deser_text n rest).2.length ≤ rest.length := deser_text_length
    rw [h] at hl; simp only [List.length_cons] at *; omega
  · have hl : (deser_class_locarno b.classification_locarno rest).2.length ≤ rest.length :=
      deser_class_locarno_length
    rw [h] at hl; simp only [List.length_cons] at *; omega
  · have hl : (deser_class_national b.classification_national rest).2.length ≤ rest.length :=
      deser_class_national_length
    rw [h] at hl; simp only [List.length_cons] at *; omega
  · simp only [List.length_cons]; omega
  · simp only [List.length_cons]; omega
  · simp only [List.length_cons]; omega

theorem deser_biblio_length {b : BibliographicDataGrant} {evs : List XmlEvent} :
    ∀ {r : Except Error BibliographicDataGrant} {rest2 : List XmlEvent},
      deser_biblio b evs = some (r, rest2) → rest2.length ≤ evs.length := by
  induction b, evs using deser_biblio.induct with
  | case1 b =>
      intro r rest2 hh
      simp [deser_biblio] at hh
  | case2 b raw rest v rest3 heq ih =>
      intro r rest2 hh
      rw [deser_biblio] at hh
      simp only [String.reduceEq, reduceIte] at hh
      split at hh
      next v2 rest4 heq2 =>
        rw [heq] at heq2
        injection heq2 with h1 h2
        injection h1 with h1
        subst h1; subst h2
        have hres := ih hh
        have hl : (deser_doc_id b.publication_reference rest).2.length ≤ rest.length := deser_doc_id_length
        rw [heq] at hl
        simp at hl
        simp only [List.length_cons]
        omega
      next e2 rest4 heq2 =>
        rw [heq] at heq2
        exact absurd heq2 (by simp)
  | case3 b raw rest e rest3 heq =>
      intro r rest2 hh
      rw [deser_biblio] at hh
      simp only [String.reduceEq, reduceIte] at hh
      split at hh
      next v2 rest4 heq2 =>
        rw [heq] at heq2
        exact absurd heq2 (by simp)
      next e2 rest4 heq2 =>
        rw [heq] at heq2
        injection heq2 with h1 h2
        subst h2
        injection hh with hh
        injection hh with hh1 hh2
        subst hh2
        have hl : (deser_doc_id b.publication_reference rest).2.length ≤ rest.length := deser_doc_id_length
        rw [heq] at hl
        simp at hl
        simp only [List.length_cons]
        omega
  | case4 b raw rest v rest3 heq hne1 ih =>
      intro r rest2 hh
      rw [deser_biblio] at hh
      simp only [String.reduceEq, reduceIte] at hh
      split at hh
      next v2 rest4 heq2 =>
        rw [heq] at heq2
        injection heq2 with h1 h2
        injection h1 with h1
        subst h1; subst h2
        have hres := ih hh
        have hl : (deser_doc_id b.application_reference rest).2.length ≤ rest.length := deser_doc_id_length
        rw [heq] at hl
        simp at hl
        simp only [List.length_cons]
        omega
      next e2 rest4 heq2 =>
        rw [heq] at heq2
        exact absurd heq2 (by simp)
  | case5 b raw rest e rest3 heq hne1 =>
      intro r rest2 hh
      rw [deser_biblio] at hh
      simp only [String.reduceEq, reduceIte] at hh
      split at hh
      next v2 rest4 heq2 =>
        rw [heq] at heq2
        exact absurd heq2 (by simp)
      next e2 rest4 heq2 =>
        rw [heq] at heq2
        injection heq2 with h1 h2
        subst h2
        injection hh with hh
        injection hh with hh1 hh2
        subst hh2
        have hl : (deser_doc_id b.application_reference rest).2.length ≤ rest.length := deser_doc_id_length
        rw [heq] at hl
        simp at hl
        simp only [List.length_cons]
        omega
  | case6 b raw rest v rest3 hne1 hne2 heq ih =>
      intro r rest2 hh
      rw [deser_biblio] at hh
      simp only [String.reduceEq, reduceIte] at hh
      split at hh
      next v2 rest4 heq2 =>
        rw [heq] at heq2
        injection heq2 with h1 h2
        injection h1 with h1
        subst h1; subst h2
        have hres := ih hh
        have hl : (deser_text "us-application-series-code" rest).2.length ≤ rest.length := deser_text_length
        rw [heq] at hl
        simp at hl
        simp only [List.length_cons]
        omega
      next e2 rest4 heq2 =>
        rw [heq] at heq2
        exact absurd heq2 (by simp)
  | case7 b raw rest e rest3 hne1 hne2 heq =>
      intro r rest2 hh
      rw [deser_biblio] at hh
      simp only [String.reduceEq, reduceIte] at hh
      split at hh
      next v2 rest4 heq2 =>
        rw [heq] at heq2
        exact absurd heq2 (by simp)
      next e2 rest4 heq2 =>
        rw [heq] at heq2
        injection heq2 with h1 h2
        subst h2
        injection hh with hh
        injection hh with hh1 hh2
        subst hh2
        have hl : (deser_text "us-application-series-code" rest).2.length ≤ rest.length := deser_text_length
        rw [heq] at hl
        simp at hl
        simp only [List.length_cons]
        omega
  | case8 b raw rest v rest3 heq hne1 hne2 hne3 ih =>
      intro r rest2 hh
      rw [deser_biblio] at hh
      simp only [String.reduceEq, reduceIte] at hh
      split at hh
      next v2 rest4 heq2 =>
        rw [heq] at heq2
        injection heq2 with h1 h2
        injection h1 with h1
        subst h1; subst h2
        have hres := ih hh
        have hl : (deser_class_locarno b.classification_locarno rest).2.length ≤ rest.length := deser_class_locarno_length
        rw [heq] at hl
        simp at hl
        simp only [List.length_cons]
        omega
      next e2 rest4 heq2 =>
        rw [heq] at heq2
        exact absurd heq2 (by simp)
  | case9 b raw rest e rest3 heq hne1 hne2 hne3 =>
      intro r rest2 hh
      rw [deser_biblio] at hh
      simp only [String.reduceEq, reduceIte] at hh
      split at hh
      next v2 rest4 heq2 =>
        rw [heq] at heq2
        exact absurd heq2 (by simp)
      next e2 rest4 heq2 =>
        rw [heq] at heq2
        injection heq2 with h1 h2
        subst h2
        injection hh with hh
        injection hh with hh1 hh2
        subst hh2
        have hl : (deser_class_locarno b.classification_locarno rest).2.length ≤ rest.length := deser_class_locarno_length
        rw [heq] at hl
        simp at hl
        simp only [List.length_cons]
        omega
  | case10 b raw rest v rest3 heq hne1 hne2 hne3 hne4 ih =>
      intro r rest2 hh
      rw [deser_biblio] at hh
      simp only [String.reduceEq, reduceIte] at hh
      split at hh
      next v2 rest4 heq2 =>
        rw [heq] at heq2
        injection heq2 with h1 h2
        injection h1 with h1
        subst h1; subst h2
        have hres := ih hh
        have hl : (deser_class_national b.classification_national rest).2.length ≤ rest.length := deser_class_national_length
        rw [heq] at hl
        simp at hl
        simp only [List.length_cons]
        omega
      next e2 rest4 heq2 =>
        rw [heq] at heq2
        exact absurd heq2 (by simp)
  | case11 b raw rest e rest3 heq hne1 hne2 hne3 hne4 =>
      intro r rest2 hh
      rw [deser_biblio] at hh
      simp only [String.reduceEq, reduceIte] at hh
      split at hh
      next v2 rest4 heq2 =>
        rw [heq] at heq2
        exact absurd heq2 (by simp)
      next e2 rest4 heq2 =>
        rw [heq] at heq2
        injection heq2 with h1 h2
        subst h2
        injection hh with hh
        injection hh with hh1 hh2
        subst hh2
        have hl : (deser_class_national b.classification_national rest).2.length ≤ rest.length := deser_class_national_length
        rw [heq] at hl
        simp at hl
        simp only [List.length_cons]
        omega
  | case12 b n raw rest hn1 hn2 hn3 hn4 hn5 ih =>
      intro r rest2 hh
      rw [deser_biblio] at hh
      rw [if_neg hn1, if_neg hn2, if_neg hn3, if_neg hn4, if_neg hn5] at hh
      have := ih hh
      simp only [List.length_cons]
      omega
  | case13 b raw rest =>
      intro r rest2 hh
      rw [deser_biblio] at hh
      simp only [String.reduceEq, reduceIte] at hh
      injection hh with hh
      injection hh with hh1 hh2
      subst hh2
      simp
  | case14 b n raw rest hn ih =>
      intro r rest2 hh
      rw [deser_biblio] at hh
      rw [if_neg hn] at hh
      have := ih hh
      simp only [List.length_cons]
      omega
  | case15 b head rest hs he ih =>
      intro r rest2 hh
      cases head with
      | start n rw2 => exact (hs n rw2 rfl).elim
      | endTag n rw2 => exact (he n rw2 rfl).elim
      | decl rw2 =>
          simp only [deser_biblio] at hh
          have := ih hh
          simp only [List.length_cons]
          omega
      | doctype rw2 =>
          simp only [deser_biblio] at hh
          have := ih hh
          simp only [List.length_cons]
          omega
      | text c rw2 =>
          simp only [deser_biblio] at hh
          have := ih hh
          simp only [List.length_cons]
          omega
      | pi c rw2 =>
          simp only [deser_biblio] at hh
          have := ih hh
          simp only [List.length_cons]
          omega

theorem piScan_length {evs : List XmlEvent} {buf : String}
    {r : Except Error String} {rest2 : List XmlEvent}
    (h : piScan evs buf = some (r, rest2)) : rest2.length ≤ evs.length := by
  induction evs generalizing buf with
  | nil => simp [piScan] at h
  | cons e tail ih =>
      cases e with
      | pi c raw =>
          rw [piScan] at h
          split at h
          · injection h with h
            injection h with h1 h2
            subst h2
            simp
          · split at h
            · injection h with h
              injection h with h1 h2
              subst h2
              simp
            · have := ih h
              simp only [List.length_cons]
              omega
      | decl raw => simp only [piScan] at h; have := ih h; simp only [List.length_cons]; omega
      | doctype raw => simp only [piScan] at h; have := ih h; simp only [List.length_cons]; omega
      | start n raw => simp only [piScan] at h; have := ih h; simp only [List.length_cons]; omega
      | endTag n raw => simp only [piScan] at h; have := ih h; simp only [List.length_cons]; omega
      | text c raw => simp only [piScan] at h; have := ih h; simp only [List.length_cons]; omega

theorem deser_top_pi_length {c : String} {g : PatentGrant} {evs : List XmlEvent}
    {r : Except Error PatentGrant} {rest2 : List XmlEvent}
    (h : deser_top_pi c g evs = some (r, rest2)) : rest2.length ≤ evs.length := by
  rw [deser_top_pi] at h
  split at h
  · injection h with h; injection h with h1 h2; subst h2; simp
  · split at h
    · injection h with h; injection h with h1 h2; subst h2; simp
    · split at h
      · split at h
        · simp at h
        · next heq =>
            injection h with h
            injection h with h1 h2
            subst h2
            exact piScan_length heq
        · next heq =>
            injection h with h
            injection h with h1 h2
            subst h2
            exact piScan_length heq
      · injection h with h; injection h with h1 h2; subst h2; simp

/-- The per-record dispatch loop of `deser_patent_grant`
(deserialize.rs:52-82).  Reads events and dispatches: processing
instructions to `deser_top_pi`; starts named `us-claim-statement`,
`claims`, `us-bibliographic-data-grant` to their extractors; other starts
are skipped; the end tag `us-patent-grant` (or `Eof`) breaks the loop,
yielding `Ok` with the record built so far; other events are skipped.
`none` propagates divergence of a sub-loop. -/
def deserLoop (g : PatentGrant) (evs : List XmlEvent) :
    Option (Except Error PatentGrant × List XmlEvent) :=
  match evs with
  | [] => some (.ok g, [])
  | .pi c _ :: rest =>
      match h : deser_top_pi c g rest with
      | none => none
      | some (.error e, rest') => some (.error e, rest')
      | some (.ok g', rest') => deserLoop g' rest'
  | .start n _ :: rest =>
      if n = "us-claim-statement" then
        match h : deser_text n rest with
        | (.ok t, rest') => deserLoop { g with us_claim_statement := t } rest'
        | (.error e, rest') => some (.error e, rest')
      else if n = "claims" then
        match h : deser_claims g rest with
        | (.ok g', rest') => deserLoop g' rest'
        | (.error e, rest') => some (.error e, rest')
      else if n = "us-bibliographic-data-grant" then
        match h : deser_biblio g.us_bibliographic_data_grant rest with
        | none => none
        | some (.ok b, rest') =>
            deserLoop { g with us_bibliographic_data_grant := b } rest'
        | some (.error e, rest') => some (.error e, rest')
      else deserLoop g rest
  | .endTag n _ :: rest =>
      if n = "us-patent-grant" then some (.ok g, rest)
      else deserLoop g rest
  | _ :: rest => deserLoop g rest
termination_by evs.length
decreasing_by
  · have hl := deser_top_pi_length h
    simp only [List.length_cons] at *
    omega
  · have hl : (deser_text n rest).2.length ≤ rest.length := deser_text_length
    rw [h] at hl
    simp only [List.length_cons] at *
    omega
  · have hl : (deser_claims g rest).2.length ≤ rest.length := deser_claims_length
    rw [h] at hl
    simp only [List.length_cons] at *
    omega
  · have hl := deser_biblio_length h
    simp only [List.length_cons] at *
    omega
  · simp only [List.length_cons]; omega
  · simp only [List.length_cons]; omega
  · simp only [List.length_cons]; omega

/-- `deser_patent_grant` (deserialize.rs:35-87): scan the record header,
then run the dispatch loop on a fresh default record.  The outer `Option`
is the divergence marker; the inner `Option` is the Rust `Option` (`none`
= clean end of stream). -/
def deser_patent_grant (evs : List XmlEvent) :
    Option (Option (Except Error PatentGrant) × List XmlEvent) :=
  match deser_header evs with
  | (none, rest) => some (none, rest)
  | (some (.error e), rest) => some (some (.error e), rest)
  | (some (.ok _), rest) =>
      match deserLoop PatentGrant.default rest with
      | none => none
      | some (res, rest') => some (some res, rest')

/-- `Iterator::next` (deserialize.rs:97-102) applied `n` times: collects
the `Option (Result PatentGrant)` values produced.  (The buffer clearing
in `next` has no observable effect in the model: the top-level scratch
buffer is written but never read.) -/
def iterN : Nat → List XmlEvent → Option (List (Option (Except Error PatentGrant)) × List XmlEvent)
  | 0, evs => some ([], evs)
  | n + 1, evs =>
      match deser_patent_grant evs with
      | none => none
      | some (res, rest) =>
          match iterN n rest with
          | none => none
          | some (l, rest') => some (res :: l, rest')

/-! ## Step lemmas: one rewrite per loop iteration, usable by `simp` -/

theorem deser_claims_nil (g : PatentGrant) : deser_claims g [] = (.ok g, []) := by
  rw [deser_claims]

theorem deser_claims_claim_ok {rest2 : List XmlEvent} {t : String} {rest3 : List XmlEvent}
    (g : PatentGrant) (r1 r2 : String)
    (h : deser_text "claim-text" rest2 = (.ok t, rest3)) :
    deser_claims g (.start "claim" r1 :: .start "claim-text" r2 :: rest2) =
      deser_claims { g with claims := g.claims ++ [t] } rest3 := by
  rw [deser_claims]
  simp only [String.reduceEq, reduceIte]
  split
  next t2 rest4 heq =>
    rw [h] at heq
    injection heq with h1 h2
    injection h1 with h1
    subst h1; subst h2
    rfl
  next e2 rest4 heq =>
    rw [h] at heq
    exact absurd heq (by simp)

theorem deser_claims_claim_err {rest2 : List XmlEvent} {e : Error} {rest3 : List XmlEvent}
    (g : PatentGrant) (r1 r2 : String)
    (h : deser_text "claim-text" rest2 = (.error e, rest3)) :
    deser_claims g (.start "claim" r1 :: .start "claim-text" r2 :: rest2) =
      (.error e, rest3) := by
  rw [deser_claims]
  simp only [String.reduceEq, reduceIte]
  split
  next t2 rest4 heq =>
    rw [h] at heq
    exact absurd heq (by simp)
  next e2 rest4 heq =>
    rw [h] at heq
    injection heq with h1 h2
    injection h1 with h1
    subst h1; subst h2
    rfl

theorem deser_claims_inner_otherstart {n2 : String} (hn2 : ¬n2 = "claim-text")
    (g : PatentGrant) (r1 r2 : String) (rest2 : List XmlEvent) :
    deser_claims g (.start "claim" r1 :: .start n2 r2 :: rest2) = (.ok g, rest2) := by
  rw [deser_claims]
  simp only [String.reduceEq, reduceIte, hn2, if_false]

theorem deser_claims_inner_nonstart {e : XmlEvent}
    (he : ∀ n raw, e ≠ XmlEvent.start n raw)
    (g : PatentGrant) (r1 : String) (rest2 : List XmlEvent) :
    deser_claims g (.start "claim" r1 :: e :: rest2) = (.ok g, rest2) := by
  cases e with
  | start n raw => exact absurd rfl (he n raw)
  | decl raw => rw [deser_claims] <;> simp
  | doctype raw => rw [deser_claims] <;> simp
  | endTag n raw => rw [deser_claims] <;> simp
  | text c raw => rw [deser_claims] <;> simp
  | pi c raw => rw [deser_claims] <;> simp

theorem deser_claims_inner_nil (g : PatentGrant) (r1 : String) :
    deser_claims g [.start "claim" r1] = (.ok g, []) := by
  rw [deser_claims]; simp

theorem deser_claims_nonclaim {n : String} (hn : ¬n = "claim")
    (g : PatentGrant) (r : String) (rest : List XmlEvent) :
    deser_claims g (.start n r :: rest) = (.ok g, rest) := by
  rw [deser_claims.eq_def]
  split <;> simp_all

theorem deser_claims_nonstart {e : XmlEvent}
    (he : ∀ n raw, e ≠ XmlEvent.start n raw)
    (g : PatentGrant) (rest : List XmlEvent) :
    deser_claims g (e :: rest) = (.ok g, rest) := by
  cases e with
  | start n raw => exact absurd rfl (he n raw)
  | decl raw => rw [deser_claims] <;> simp
  | doctype raw => rw [deser_claims] <;> simp
  | endTag n raw => rw [deser_claims] <;> simp
  | text c raw => rw [deser_claims] <;> simp
  | pi c raw => rw [deser_claims] <;> simp

theorem deser_claims_endTag (g : PatentGrant) (n r : String) (rest : List XmlEvent) :
    deser_claims g (.endTag n r :: rest) = (.ok g, rest) :=
  deser_claims_nonstart (by simp) g rest

theorem psuf_req_ok {σ : Type} {container n : String}
    {reqF optF : List (String × (σ → String → σ))} {p : String × (σ → String → σ)}
    {rest : List XmlEvent} {t : String} {rest3 : List XmlEvent}
    (hfind : reqF.find? (fun q => q.1 = n) = some p)
    (h : deser_text_from n rest = (.ok t, rest3)) (s : σ) (r : String) :
    parse_struct_update_from container reqF optF s (.start n r :: rest) =
      parse_struct_update_from container reqF optF (p.2 s t) rest3 := by
  rw [parse_struct_update_from]
  simp only [hfind]
  split
  next t2 rest4 heq =>
    rw [h] at heq
    injection heq with h1 h2
    injection h1 with h1
    subst h1; subst h2
    rfl
  next e2 rest4 heq =>
    rw [h] at heq
    exact absurd heq (by simp)

theorem psuf_req_err {σ : Type} {container n : String}
    {reqF optF : List (String × (σ → String → σ))} {p : String × (σ → String → σ)}
    {rest : List XmlEvent} {e : Error} {rest3 : List XmlEvent}
    (hfind : reqF.find? (fun q => q.1 = n) = some p)
    (h : deser_text_from n rest = (.error e, rest3)) (s : σ) (r : String) :
    parse_struct_update_from container reqF optF s (.start n r :: rest) =
      (.error e, rest3) := by
  rw [parse_struct_update_from]
  simp only [hfind]
  split
  next t2 rest4 heq =>
    rw [h] at heq
    exact absurd heq (by simp)
  next e2 rest4 heq =>
    rw [h] at heq
    injection heq with h1 h2
    injection h1 with h1
    subst h1; subst h2
    rfl

theorem psuf_opt_ok {σ : Type} {container n : String}
    {reqF optF : List (String × (σ → String → σ))} {p : String × (σ → String → σ)}
    {rest : List XmlEvent} {t : String} {rest3 : List XmlEvent}
    (hreq : reqF.find? (fun q => q.1 = n) = none)
    (hfind : optF.find? (fun q => q.1 = n) = some p)
    (h : deser_text_from n rest = (.ok t, rest3)) (s : σ) (r : String) :
    parse_struct_update_from container reqF optF s (.start n r :: rest) =
      parse_struct_update_from container reqF optF (p.2 s t) rest3 := by
  rw [parse_struct_update_from]
  simp only [hreq, hfind]
  split
  next t2 rest4 heq =>
    rw [h] at heq
    injection heq with h1 h2
    injection h1 with h1
    subst h1; subst h2
    rfl
  next e2 rest4 heq =>
    rw [h] at heq
    exact absurd heq (by simp)

theorem psuf_opt_err {σ : Type} {container n : String}
    {reqF optF : List (String × (σ → String → σ))} {p : String × (σ → String → σ)}
    {rest : List XmlEvent} {e : Error} {rest3 : List XmlEvent}
    (hreq : reqF.find? (fun q => q.1 = n) = none)
    (hfind : optF.find? (fun q => q.1 = n) = some p)
    (h : deser_text_from n rest = (.error e, rest3)) (s : σ) (r : String) :
    parse_struct_update_from container reqF optF s (.start n r :: rest) =
      (.error e, rest3) := by
  rw [parse_struct_update_from]
  simp only [hreq, hfind]
  split
  next t2 rest4 heq =>
    rw [h] at heq
    exact absurd heq (by simp)
  next e2 rest4 heq =>
    rw [h] at heq
    injection heq with h1 h2
    injection h1 with h1
    subst h1; subst h2
    rfl

theorem psuf_unrecognized {σ : Type} {container n : String}
    {reqF optF : List (String × (σ → String → σ))}
    (hreq : reqF.find? (fun q => q.1 = n) = none)
    (hopt : optF.find? (fun q => q.1 = n) = none)
    (s : σ) (r : String) (rest : List XmlEvent) :
    parse_struct_update_from container reqF optF s (.start n r :: rest) =
      (.error (.deser ("unrecognized element Ok(\"" ++ n ++ "\") in " ++ container)), rest) := by
  rw [parse_struct_update_from]
  simp only [hreq, hopt]

theorem psuf_end_match {σ : Type} {container : String}
    {reqF optF : List (String × (σ → String → σ))}
    (s : σ) (r : String) (rest : List XmlEvent) :
    parse_struct_update_from container reqF optF s (.endTag container r :: rest) =
      (.ok s, rest) := by
  rw [parse_struct_update_from]
  simp

theorem psuf_end_nonmatch {σ : Type} {container n : String}
    {reqF optF : List (String × (σ → String → σ))} (hn : ¬n = container)
    (s : σ) (r : String) (rest : List XmlEvent) :
    parse_struct_update_from container reqF optF s (.endTag n r :: rest) =
      parse_struct_update_from container reqF optF s rest := by
  rw [parse_struct_update_from]
  simp only [hn, if_false]

theorem psuf_nonstart {σ : Type} {container : String}
    {reqF optF : List (String × (σ → String → σ))} {e : XmlEvent}
    (hs : ∀ n raw, e ≠ XmlEvent.start n raw)
    (he : ∀ n raw, e ≠ XmlEvent.endTag n raw)
    (s : σ) (rest : List XmlEvent) :
    parse_struct_update_from container reqF optF s (e :: rest) = (.ok s, rest) := by
  cases e with
  | start n raw => exact absurd rfl (hs n raw)
  | endTag n raw => exact absurd rfl (he n raw)
  | decl raw => rw [parse_struct_update_from] <;> simp
  | doctype raw => rw [parse_struct_update_from] <;> simp
  | text c raw => rw [parse_struct_update_from] <;> simp
  | pi c raw => rw [parse_struct_update_from] <;> simp

theorem psuf_nil {σ : Type} {container : String}
    {reqF optF : List (String × (σ → String → σ))} (s : σ) :
    parse_struct_update_from container reqF optF s [] = (.ok s, []) := by
  rw [parse_struct_update_from]

theorem deser_biblio_pub_ok {rest : List XmlEvent} {v : DocumentId} {rest3 : List XmlEvent}
    (b : BibliographicDataGrant) (r : String)
    (h : deser_doc_id b.publication_reference rest = (.ok v, rest3)) :
    deser_biblio b (.start "publication-reference" r :: rest) = deser_biblio { b with publication_reference := v } rest3 := by
  rw [deser_biblio]
  simp only [String.reduceEq, reduceIte]
  split
  next v2 rest4 heq =>
    rw [h] at heq
    injection heq with h1 h2
    injection h1 with h1
    subst h1; subst h2
    rfl
  next e2 rest4 heq =>
    rw [h] at heq
    exact absurd heq (by simp)

theorem deser_biblio_pub_err {rest : List XmlEvent} {e : Error} {rest3 : List XmlEvent}
    (b : BibliographicDataGrant) (r : String)
    (h : deser_doc_id b.publication_reference rest = (.error e, rest3)) :
    deser_biblio b (.start "publication-reference" r :: rest) = some (.error e, rest3) := by
  rw [deser_biblio]
  simp only [String.reduceEq, reduceIte]
  split
  next v2 rest4 heq =>
    rw [h] at heq
    exact absurd heq (by simp)
  next e2 rest4 heq =>
    rw [h] at heq
    injection heq with h1 h2
    injection h1 with h1
    subst h1; subst h2
    rfl

theorem deser_biblio_app_ok {rest : List XmlEvent} {v : DocumentId} {rest3 : List XmlEvent}
    (b : BibliographicDataGrant) (r : String)
    (h : deser_doc_id b.application_reference rest = (.ok v, rest3)) :
    deser_biblio b (.start "application-reference" r :: rest) = deser_biblio { b with application_reference := v } rest3 := by
  rw [deser_biblio]
  simp only [String.reduceEq, reduceIte]
  split
  next v2 rest4 heq =>
    rw [h] at heq
    injection heq with h1 h2
    injection h1 with h1
    subst h1; subst h2
    rfl
  next e2 rest4 heq =>
    rw [h] at heq
    exact absurd heq (by simp)

theorem deser_biblio_app_err {rest : List XmlEvent} {e : Error} {rest3 : List XmlEvent}
    (b : BibliographicDataGrant) (r : String)
    (h : deser_doc_id b.application_reference rest = (.error e, rest3)) :
    deser_biblio b (.start "application-reference" r :: rest) = some (.error e, rest3) := by
  rw [deser_biblio]
  simp only [String.reduceEq, reduceIte]
  split
  next v2 rest4 heq =>
    rw [h] at heq
    exact absurd heq (by simp)
  next e2 rest4 heq =>
    rw [h] at heq
    injection heq with h1 h2
    injection h1 with h1
    subst h1; subst h2
    rfl

theorem deser_biblio_series_ok {rest : List XmlEvent} {v : String} {rest3 : List XmlEvent}
    (h : deser_text "us-application-series-code" rest = (.ok v, rest3)) (b : BibliographicDataGrant) (r : String) :
    deser_biblio b (.start "us-application-series-code" r :: rest) = deser_biblio { b with us_application_series_code := v } rest3 := by
  rw [deser_biblio]
  simp only [String.reduceEq, reduceIte]
  split
  next v2 rest4 heq =>
    rw [h] at heq
    injection heq with h1 h2
    injection h1 with h1
    subst h1; subst h2
    rfl
  next e2 rest4 heq =>
    rw [h] at heq
    exact absurd heq (by simp)

theorem deser_biblio_series_err {rest : List XmlEvent} {e : Error} {rest3 : List XmlEvent}
    (h : deser_text "us-application-series-code" rest = (.error e, rest3)) (b : BibliographicDataGrant) (r : String) :
    deser_biblio b (.start "us-application-series-code" r :: rest) = some (.error e, rest3) := by
  rw [deser_biblio]
  simp only [String.reduceEq, reduceIte]
  split
  next v2 rest4 heq =>
    rw [h] at heq
    exact absurd heq (by simp)
  next e2 rest4 heq =>
    rw [h] at heq
    injection heq with h1 h2
    injection h1 with h1
    subst h1; subst h2
    rfl

theorem deser_biblio_locarno_ok {rest : List XmlEvent} {v : ClassificationLocarno} {rest3 : List XmlEvent}
    (b : BibliographicDataGrant) (r : String)
    (h : deser_class_locarno b.classification_locarno rest = (.ok v, rest3)) :
    deser_biblio b (.start "classification-locarno" r :: rest) = deser_biblio { b with classification_locarno := v } rest3 := by
  rw [deser_biblio]
  simp only [String.reduceEq, reduceIte]
  split
  next v2 rest4 heq =>
    rw [h] at heq
    injection heq with h1 h2
    injection h1 with h1
    subst h1; subst h2
    rfl
  next e2 rest4 heq =>
    rw [h] at heq
    exact absurd heq (by simp)

theorem deser_biblio_locarno_err {rest : List XmlEvent} {e : Error} {rest3 : List XmlEvent}
    (b : BibliographicDataGrant) (r : String)
    (h : deser_class_locarno b.classification_locarno rest = (.error e, rest3)) :
    deser_biblio b (.start "classification-locarno" r :: rest) = some (.error e, rest3) := by
  rw [deser_biblio]
  simp only [String.reduceEq, reduceIte]
  split
  next v2 rest4 heq =>
    rw [h] at heq
    exact absurd heq (by simp)
  next e2 rest4 heq =>
    rw [h] at heq
    injection heq with h1 h2
    injection h1 with h1
    subst h1; subst h2
    rfl

theorem deser_biblio_national_ok {rest : List XmlEvent} {v : ClassificationNational} {rest3 : List XmlEvent}
    (b : BibliographicDataGrant) (r : String)
    (h : deser_class_national b.classification_national rest = (.ok v, rest3)) :
    deser_biblio b (.start "classification-national" r :: rest) = deser_biblio { b with classification_national := v } rest3 := by
  rw [deser_biblio]
  simp only [String.reduceEq, reduceIte]
  split
  next v2 rest4 heq =>
    rw [h] at heq
    injection heq with h1 h2
    injection h1 with h1
    subst h1; subst h2
    rfl
  next e2 rest4 heq =>
    rw [h] at heq
    exact absurd heq (by simp)

theorem deser_biblio_national_err {rest : List XmlEvent} {e : Error} {rest3 : List XmlEvent}
    (b : BibliographicDataGrant) (r : String)
    (h : deser_class_national b.classification_national rest = (.error e, rest3)) :
    deser_biblio b (.start "classification-national" r :: rest) = some (.error e, rest3) := by
  rw [deser_biblio]
  simp only [String.reduceEq, reduceIte]
  split
  next v2 rest4 heq =>
    rw [h] at heq
    exact absurd heq (by simp)
  next e2 rest4 heq =>
    rw [h] at heq
    injection heq with h1 h2
    injection h1 with h1
    subst h1; subst h2
    rfl

theorem deser_biblio_otherstart {n : String}
    (h1 : ¬n = "publication-reference") (h2 : ¬n = "application-reference")
    (h3 : ¬n = "us-application-series-code") (h4 : ¬n = "classification-locarno")
    (h5 : ¬n = "classification-national")
    (b : BibliographicDataGrant) (r : String) (rest : List XmlEvent) :
    deser_biblio b (.start n r :: rest) = deser_biblio b rest := by
  rw [deser_biblio]
  rw [if_neg h1, if_neg h2, if_neg h3, if_neg h4, if_neg h5]

theorem deser_biblio_end_match (b : BibliographicDataGrant) (r : String)
    (rest : List XmlEvent) :
    deser_biblio b (.endTag "us-bibliographic-data-grant" r :: rest) = some (.ok b, rest) := by
  rw [deser_biblio]
  simp

theorem deser_biblio_end_nonmatch {n : String} (hn : ¬n = "us-bibliographic-data-grant")
    (b : BibliographicDataGrant) (r : String) (rest : List XmlEvent) :
    deser_biblio b (.endTag n r :: rest) = deser_biblio b rest := by
  rw [deser_biblio]
  rw [if_neg hn]

theorem deser_biblio_other {e : XmlEvent}
    (hs : ∀ n raw, e ≠ XmlEvent.start n raw)
    (he : ∀ n raw, e ≠ XmlEvent.endTag n raw)
    (b : BibliographicDataGrant) (rest : List XmlEvent) :
    deser_biblio b (e :: rest) = deser_biblio b rest := by
  cases e with
  | start n raw => exact absurd rfl (hs n raw)
  | endTag n raw => exact absurd rfl (he n raw)
  | decl raw => rw [deser_biblio] <;> simp
  | doctype raw => rw [deser_biblio] <;> simp
  | text c raw => rw [deser_biblio] <;> simp
  | pi c raw => rw [deser_biblio] <;> simp

theorem deser_biblio_nil (b : BibliographicDataGrant) : deser_biblio b [] = none := by
  rw [deser_biblio]


theorem deserLoop_nil (g : PatentGrant) : deserLoop g [] = some (.ok g, []) := by
  rw [deserLoop]

theorem deserLoop_pi_none {c : String} {g : PatentGrant} {rest : List XmlEvent}
    (h : deser_top_pi c g rest = none) (r : String) :
    deserLoop g (.pi c r :: rest) = none := by
  rw [deserLoop]
  split
  next heq => rfl
  next e2 rest4 heq => rw [h] at heq; exact absurd heq (by simp)
  next g2 rest4 heq => rw [h] at heq; exact absurd heq (by simp)

theorem deserLoop_pi_err {c : String} {g : PatentGrant} {rest : List XmlEvent}
    {e : Error} {rest3 : List XmlEvent}
    (h : deser_top_pi c g rest = some (.error e, rest3)) (r : String) :
    deserLoop g (.pi c r :: rest) = some (.error e, rest3) := by
  rw [deserLoop]
  split
  next heq => rw [h] at heq; exact absurd heq (by simp)
  next e2 rest4 heq =>
    rw [h] at heq
    injection heq with heq
    injection heq with h1 h2
    injection h1 with h1
    subst h1; subst h2
    rfl
  next g2 rest4 heq => rw [h] at heq; simp at heq
  done

theorem deserLoop_pi_ok {c : String} {g : PatentGrant} {rest : List XmlEvent}
    {g2 : PatentGrant} {rest3 : List XmlEvent}
    (h : deser_top_pi c g rest = some (.ok g2, rest3)) (r : String) :
    deserLoop g (.pi c r :: rest) = deserLoop g2 rest3 := by
  rw [deserLoop]
  split
  next heq => rw [h] at heq; exact absurd heq (by simp)
  next e2 rest4 heq => rw [h] at heq; simp at heq
  next g3 rest4 heq =>
    rw [h] at heq
    injection heq with heq
    injection heq with h1 h2
    injection h1 with h1
    subst h1; subst h2
    rfl

theorem deserLoop_claim_statement_ok {rest : List XmlEvent} {t : String}
    {rest3 : List XmlEvent}
    (h : deser_text "us-claim-statement" rest = (.ok t, rest3))
    (g : PatentGrant) (r : String) :
    deserLoop g (.start "us-claim-statement" r :: rest) =
      deserLoop { g with us_claim_statement := t } rest3 := by
  rw [deserLoop]
  simp only [String.reduceEq, reduceIte]
  split
  next t2 rest4 heq =>
    rw [h] at heq
    injection heq with h1 h2
    injection h1 with h1
    subst h1; subst h2
    rfl
  next e2 rest4 heq => rw [h] at heq; exact absurd heq (by simp)

theorem deserLoop_claim_statement_err {rest : List XmlEvent} {e : Error}
    {rest3 : List XmlEvent}
    (h : deser_text "us-claim-statement" rest = (.error e, rest3))
    (g : PatentGrant) (r : String) :
    deserLoop g (.start "us-claim-statement" r :: rest) = some (.error e, rest3) := by
  rw [deserLoop]
  simp only [String.reduceEq, reduceIte]
  split
  next t2 rest4 heq => rw [h] at heq; exact absurd heq (by simp)
  next e2 rest4 heq =>
    rw [h] at heq
    injection heq with h1 h2
    injection h1 with h1
    subst h1; subst h2
    rfl

theorem deserLoop_claims_ok {g : PatentGrant} {rest : List XmlEvent}
    {g2 : PatentGrant} {rest3 : List XmlEvent}
    (h : deser_claims g rest = (.ok g2, rest3)) (r : String) :
    deserLoop g (.start "claims" r :: rest) = deserLoop g2 rest3 := by
  rw [deserLoop]
  simp only [String.reduceEq, reduceIte]
  split
  next g3 rest4 heq =>
    rw [h] at heq
    injection heq with h1 h2
    injection h1 with h1
    subst h1; subst h2
    rfl
  next e2 rest4 heq => rw [h] at heq; exact absurd heq (by simp)

theorem deserLoop_claims_err {g : PatentGrant} {rest : List XmlEvent}
    {e : Error} {rest3 : List XmlEvent}
    (h : deser_claims g rest = (.error e, rest3)) (r : String) :
    deserLoop g (.start "claims" r :: rest) = some (.error e, rest3) := by
  rw [deserLoop]
  simp only [String.reduceEq, reduceIte]
  split
  next g3 rest4 heq => rw [h] at heq; exact absurd heq (by simp)
  next e2 rest4 heq =>
    rw [h] at heq
    injection heq with h1 h2
    injection h1 with h1
    subst h1; subst h2
    rfl

theorem deserLoop_biblio_none {g : PatentGrant} {rest : List XmlEvent}
    (h : deser_biblio g.us_bibliographic_data_grant rest = none) (r : String) :
    deserLoop g (.start "us-bibliographic-data-grant" r :: rest) = none := by
  rw [deserLoop]
  simp only [String.reduceEq, reduceIte]
  split
  next heq => rfl
  next b2 rest4 heq => rw [h] at heq; exact absurd heq (by simp)
  next e2 rest4 heq => rw [h] at heq; exact absurd heq (by simp)

theorem deserLoop_biblio_ok {g : PatentGrant} {rest : List XmlEvent}
    {b2 : BibliographicDataGrant} {rest3 : List XmlEvent}
    (h : deser_biblio g.us_bibliographic_data_grant rest = some (.ok b2, rest3))
    (r : String) :
    deserLoop g (.start "us-bibliographic-data-grant" r :: rest) =
      deserLoop { g with us_bibliographic_data_grant := b2 } rest3 := by
  rw [deserLoop]
  simp only [String.reduceEq, reduceIte]
  split
  next heq => rw [h] at heq; exact absurd heq (by simp)
  next b3 rest4 heq =>
    rw [h] at heq
    injection heq with heq
    injection heq with h1 h2
    injection h1 with h1
    subst h1; subst h2
    rfl
  next e2 rest4 heq => rw [h] at heq; simp at heq

theorem deserLoop_biblio_err {g : PatentGrant} {rest : List XmlEvent}
    {e : Error} {rest3 : List XmlEvent}
    (h : deser_biblio g.us_bibliographic_data_grant rest = some (.error e, rest3))
    (r : String) :
    deserLoop g (.start "us-bibliographic-data-grant" r :: rest) =
      some (.error e, rest3) := by
  rw [deserLoop]
  simp only [String.reduceEq, reduceIte]
  split
  next heq => rw [h] at heq; exact absurd heq (by simp)
  next b3 rest4 heq => rw [h] at heq; simp at heq
  next e2 rest4 heq =>
    rw [h] at heq
    injection heq with heq
    injection heq with h1 h2
    injection h1 with h1
    subst h1; subst h2
    rfl

theorem deserLoop_otherstart {n : String}
    (h1 : ¬n = "us-claim-statement") (h2 : ¬n = "claims")
    (h3 : ¬n = "us-bibliographic-data-grant")
    (g : PatentGrant) (r : String) (rest : List XmlEvent) :
    deserLoop g (.start n r :: rest) = deserLoop g rest := by
  rw [deserLoop]
  rw [if_neg h1, if_neg h2, if_neg h3]

theorem deserLoop_end_match (g : PatentGrant) (r : String) (rest : List XmlEvent) :
    deserLoop g (.endTag "us-patent-grant" r :: rest) = some (.ok g, rest) := by
  rw [deserLoop]
  simp

theorem deserLoop_end_nonmatch {n : String} (hn : ¬n = "us-patent-grant")
    (g : PatentGrant) (r : String) (rest : List XmlEvent) :
    deserLoop g (.endTag n r :: rest) = deserLoop g rest := by
  rw [deserLoop]
  rw [if_neg hn]

theorem deserLoop_other {e : XmlEvent}
    (hs : ∀ n raw, e ≠ XmlEvent.start n raw)
    (he : ∀ n raw, e ≠ XmlEvent.endTag n raw)
    (hp : ∀ c raw, e ≠ XmlEvent.pi c raw)
    (g : PatentGrant) (rest : List XmlEvent) :
    deserLoop g (e :: rest) = deserLoop g rest := by
  cases e with
  | start n raw => exact absurd rfl (hs n raw)
  | endTag n raw => exact absurd rfl (he n raw)
  | pi c raw => exact absurd rfl (hp c raw)
  | decl raw => rw [deserLoop] <;> simp
  | doctype raw => rw [deserLoop] <;> simp
  | text c raw => rw [deserLoop] <;> simp


theorem deserLoop_pi_step (c : String) (g : PatentGrant) (r : String)
    (rest : List XmlEvent) :
    deserLoop g (.pi c r :: rest) =
      match deser_top_pi c g rest with
      | none => none
      | some (.error e, rest') => some (.error e, rest')
      | some (.ok g', rest') => deserLoop g' rest' := by
  cases h : deser_top_pi c g rest with
  | none => rw [deserLoop_pi_none h]
  | some v =>
      obtain ⟨res, rest'⟩ := v
      cases res with
      | ok g' => rw [deserLoop_pi_ok h]
      | error e => rw [deserLoop_pi_err h]

theorem deserLoop_claim_statement_step (g : PatentGrant) (r : String)
    (rest : List XmlEvent) :
    deserLoop g (.start "us-claim-statement" r :: rest) =
      match deser_text "us-claim-statement" rest with
      | (.ok t, rest') => deserLoop { g with us_claim_statement := t } rest'
      | (.error e, rest') => some (.error e, rest') := by
  cases h : deser_text "us-claim-statement" rest with
  | mk res rest' =>
      cases res with
      | ok t => rw [deserLoop_claim_statement_ok h]
      | error e => rw [deserLoop_claim_statement_err h]

theorem deserLoop_claims_step (g : PatentGrant) (r : String)
    (rest : List XmlEvent) :
    deserLoop g (.start "claims" r :: rest) =
      match deser_claims g rest with
      | (.ok g', rest') => deserLoop g' rest'
      | (.error e, rest') => some (.error e, rest') := by
  cases h : deser_claims g rest with
  | mk res rest' =>
      cases res with
      | ok g' => rw [deserLoop_claims_ok h]
      | error e => rw [deserLoop_claims_err h]

theorem deserLoop_biblio_step (g : PatentGrant) (r : String)
    (rest : List XmlEvent) :
    deserLoop g (.start "us-bibliographic-data-grant" r :: rest) =
      match deser_biblio g.us_bibliographic_data_grant rest with
      | none => none
      | some (.ok b, rest') => deserLoop { g with us_bibliographic_data_grant := b } rest'
      | some (.error e, rest') => some (.error e, rest') := by
  cases h : deser_biblio g.us_bibliographic_data_grant rest with
  | none => rw [deserLoop_biblio_none h]
  | some v =>
      obtain ⟨res, rest'⟩ := v
      cases res with
      | ok b => rw [deserLoop_biblio_ok h]
      | error e => rw [deserLoop_biblio_err h]

theorem deser_claims_claim_step (g : PatentGrant) (r1 r2 : String)
    (rest2 : List XmlEvent) :
    deser_claims g (.start "claim" r1 :: .start "claim-text" r2 :: rest2) =
      match deser_text "claim-text" rest2 with
      | (.ok t, rest3) => deser_claims { g with claims := g.claims ++ [t] } rest3
      | (.error e, rest3) => (.error e, rest3) := by
  cases h : deser_text "claim-text" rest2 with
  | mk res rest3 =>
      cases res with
      | ok t => rw [deser_claims_claim_ok g r1 r2 h]
      | error e => rw [deser_claims_claim_err g r1 r2 h]

theorem psuf_start_step {σ : Type} (container : String)
    (reqF optF : List (String × (σ → String → σ))) (s : σ) (n r : String)
    (rest : List XmlEvent) :
    parse_struct_update_from container reqF optF s (.start n r :: rest) =
      match reqF.find? (fun q => q.1 = n) with
      | some p =>
          (match deser_text_from n rest with
           | (.ok t, rest') => parse_struct_update_from container reqF optF (p.2 s t) rest'
           | (.error e, rest') => (.error e, rest'))
      | none =>
          match optF.find? (fun q => q.1 = n) with
          | some p =>
              (match deser_text_from n rest with
               | (.ok t, rest') => parse_struct_update_from container reqF optF (p.2 s t) rest'
               | (.error e, rest') => (.error e, rest'))
          | none =>
              (.error (.deser ("unrecognized element Ok(\"" ++ n ++ "\") in " ++ container)),
                rest) := by
  cases hreq : reqF.find? (fun q => q.1 = n) with
  | some p =>
      cases h : deser_text_from n rest with
      | mk res rest' =>
          cases res with
          | ok t => rw [psuf_req_ok hreq h]
          | error e => rw [psuf_req_err hreq h]
  | none =>
      cases hopt : optF.find? (fun q => q.1 = n) with
      | some p =>
          cases h : deser_text_from n rest with
          | mk res rest' =>
              cases res with
              | ok t => rw [psuf_opt_ok hreq hopt h]
              | error e => rw [psuf_opt_err hreq hopt h]
      | none => rw [psuf_unrecognized hreq hopt]

theorem deser_biblio_pub_step (b : BibliographicDataGrant) (r : String)
    (rest : List XmlEvent) :
    deser_biblio b (.start "publication-reference" r :: rest) =
      match deser_doc_id b.publication_reference rest with
      | (.ok d, rest') => deser_biblio { b with publication_reference := d } rest'
      | (.error e, rest') => some (.error e, rest') := by
  cases h : deser_doc_id b.publication_reference rest with
  | mk res rest' =>
      cases res with
      | ok d => rw [deser_biblio_pub_ok b r h]
      | error e => rw [deser_biblio_pub_err b r h]

theorem deser_biblio_app_step (b : BibliographicDataGrant) (r : String)
    (rest : List XmlEvent) :
    deser_biblio b (.start "application-reference" r :: rest) =
      match deser_doc_id b.application_reference rest with
      | (.ok d, rest') => deser_biblio { b with application_reference := d } rest'
      | (.error e, rest') => some (.error e, rest') := by
  cases h : deser_doc_id b.application_reference rest with
  | mk res rest' =>
      cases res with
      | ok d => rw [deser_biblio_app_ok b r h]
      | error e => rw [deser_biblio_app_err b r h]

theorem deser_biblio_series_step (b : BibliographicDataGrant) (r : String)
    (rest : List XmlEvent) :
    deser_biblio b (.start "us-application-series-code" r :: rest) =
      match deser_text "us-application-series-code" rest with
      | (.ok t, rest') => deser_biblio { b with us_application_series_code := t } rest'
      | (.error e, rest') => some (.error e, rest') := by
  cases h : deser_text "us-application-series-code" rest with
  | mk res rest' =>
      cases res with
      | ok t => rw [deser_biblio_series_ok h]
      | error e => rw [deser_biblio_series_err h]

theorem deser_biblio_locarno_step (b : BibliographicDataGrant) (r : String)
    (rest : List XmlEvent) :
    deser_biblio b (.start "classification-locarno" r :: rest) =
      match deser_class_locarno b.classification_locarno rest with
      | (.ok c, rest') => deser_biblio { b with classification_locarno := c } rest'
      | (.error e, rest') => some (.error e, rest') := by
  cases h : deser_class_locarno b.classification_locarno rest with
  | mk res rest' =>
      cases res with
      | ok c => rw [deser_biblio_locarno_ok b r h]
      | error e => rw [deser_biblio_locarno_err b r h]

theorem deser_biblio_national_step (b : BibliographicDataGrant) (r : String)
    (rest : List XmlEvent) :
    deser_biblio b (.start "classification-national" r :: rest) =
      match deser_class_national b.classification_national rest with
      | (.ok c, rest') => deser_biblio { b with classification_national := c } rest'
      | (.error e, rest') => some (.error e, rest') := by
  cases h : deser_class_national b.classification_national rest with
  | mk res rest' =>
      cases res with
      | ok c => rw [deser_biblio_national_ok b r h]
      | error e => rw [deser_biblio_national_err b r h]


/-! ## The input format (spec 6): well-formed records as event lists -/

/-- Events of one simple field element `<name>value</name>`. -/
def fieldEvents (p : String × String) : List XmlEvent :=
  [.start p.1 "", .text p.2 "", .endTag p.1 ""]

/-- Events of one claim: `<claim><claim-text>t</claim-text></claim>`. -/
def claimEvents (t : String) : List XmlEvent :=
  [.start "claim" "", .start "claim-text" "", .text t "",
   .endTag "claim-text" "", .endTag "claim" ""]

/-- One child of the bibliographic container, per spec 4.6. -/
inductive BiblioItem where
  | pubRef (fields : List (String × String))
  | appRef (fields : List (String × String))
  | seriesCode (v : String)
  | classLocarno (fields : List (String × String))
  | classNational (fields : List (String × String))

/-- Events of one bibliographic child. -/
def biblioItemEvents : BiblioItem → List XmlEvent
  | .pubRef fs =>
      .start "publication-reference" "" :: .start "document-id" "" ::
        (fs.flatMap fieldEvents ++
          [.endTag "document-id" "", .endTag "publication-reference" ""])
  | .appRef fs =>
      .start "application-reference" "" :: .start "document-id" "" ::
        (fs.flatMap fieldEvents ++
          [.endTag "document-id" "", .endTag "application-reference" ""])
  | .seriesCode v =>
      [.start "us-application-series-code" "", .text v "",
       .endTag "us-application-series-code" ""]
  | .classLocarno fs =>
      .start "classification-locarno" "" ::
        (fs.flatMap fieldEvents ++ [.endTag "classification-locarno" ""])
  | .classNational fs =>
      .start "classification-national" "" ::
        (fs.flatMap fieldEvents ++ [.endTag "classification-national" ""])

/-- Child-element names the document-id mapper accepts. -/
def docIdNames : List String := ["country", "doc-number", "date", "kind"]

/-- Child-element names the locarno mapper accepts. -/
def locarnoNames : List String := ["edition", "main-classification"]

/-- Child-element names the national-classification mapper accepts. -/
def nationalNames : List String :=
  ["country", "additional-info", "main-classification", "further-classification"]

/-- Well-formedness of a bibliographic child: every field name belongs to
the container's schema. -/
def biblioItemWF : BiblioItem → Bool
  | .pubRef fs => fs.all (fun p => docIdNames.contains p.1)
  | .appRef fs => fs.all (fun p => docIdNames.contains p.1)
  | .seriesCode _ => true
  | .classLocarno fs => fs.all (fun p => locarnoNames.contains p.1)
  | .classNational fs => fs.all (fun p => nationalNames.contains p.1)

/-- One child of the record root, per spec 6: a marker-delimited text
block, a claim statement, a claims list, or a bibliographic block. -/
inductive BodyItem where
  | textBlock (lead leadRaw : String) (interior : List (String × String)) (tailC tailR : String)
  | claimStatement (v : String)
  | claimsList (ts : List String)
  | biblio (items : List BiblioItem)

/-- Interior of a text block: raw text events (content, raw bytes). -/
def textEvents (l : List (String × String)) : List XmlEvent :=
  l.map (fun p => .text p.1 p.2)

/-- Events of one record-root child. -/
def bodyItemEvents : BodyItem → List XmlEvent
  | .textBlock lead leadRaw interior tailC tailR =>
      .pi lead leadRaw :: (textEvents interior ++ [.pi tailC tailR])
  | .claimStatement v =>
      [.start "us-claim-statement" "", .text v "", .endTag "us-claim-statement" ""]
  | .claimsList ts =>
      .start "claims" "" :: (ts.flatMap claimEvents ++ [.endTag "claims" ""])
  | .biblio items =>
      .start "us-bibliographic-data-grant" "" ::
        (items.flatMap biblioItemEvents ++ [.endTag "us-bibliographic-data-grant" ""])

/-- Well-formedness of a record-root child: text-block markers carry the
proper role tokens; bibliographic children satisfy their schemas. -/
def bodyItemWF : BodyItem → Bool
  | .textBlock lead _ _ tailC _ =>
      ((splitWhitespace lead).getLast? == some "end=\"lead\"") &&
      ((splitWhitespace tailC).getLast? == some "end=\"tail\"")
  | .claimStatement _ => true
  | .claimsList _ => true
  | .biblio items => items.all biblioItemWF

/-- Events of one well-formed record region: declaration, doctype, root
element with its children. -/
def recordEvents (body : List BodyItem) : List XmlEvent :=
  .decl "" :: .doctype "" :: .start "us-patent-grant" "" ::
    (body.flatMap bodyItemEvents ++ [.endTag "us-patent-grant" ""])

/-- Well-formedness of a record region. -/
def recordWF (body : List BodyItem) : Bool := body.all bodyItemWF

/-- Events the top-level dispatch loop skips without any action. -/
def inertEvent : XmlEvent → Bool
  | .start n _ =>
      ¬(n = "us-claim-statement" ∨ n = "claims" ∨ n = "us-bibliographic-data-grant")
  | .endTag n _ => ¬(n = "us-patent-grant")
  | .text _ _ => true
  | .decl _ => true
  | .doctype _ => true
  | .pi _ _ => false

/-- Concatenation of the raw bytes of a list of events. -/
def rawsConcat (l : List XmlEvent) : String :=
  l.foldr (fun e acc => e.raw ++ acc) ""

/-- An event the text-block scan loop passes over: anything but a
processing instruction whose last token is the tail role (instructions
with no token at all would error, so they are excluded too). -/
def notTailMarker : XmlEvent → Prop
  | .pi c _ => ∃ t, (splitWhitespace c).getLast? = some t ∧ t ≠ "end=\"tail\""
  | _ => True


/-! ## Consumption lemmas over the input format -/

theorem deser_text_field (n v vr er : String) (rest : List XmlEvent) :
    deser_text n (.text v vr :: .endTag n er :: rest) = (.ok v, rest) := by
  simp [deser_text, read_text, read_to_end]

theorem deser_text_from_field (n v vr er : String) (rest : List XmlEvent) :
    deser_text_from n (.text v vr :: .endTag n er :: rest) = (.ok v, rest) := by
  simp [deser_text_from, deser_text_field]

theorem piScan_skip {e : XmlEvent} (hp : ∀ c r, e ≠ XmlEvent.pi c r)
    (rest : List XmlEvent) (buf : String) :
    piScan (e :: rest) buf = piScan rest (buf ++ e.raw) := by
  cases e with
  | pi c r => exact absurd rfl (hp c r)
  | decl r => rw [piScan] <;> simp [XmlEvent.raw]
  | doctype r => rw [piScan] <;> simp [XmlEvent.raw]
  | start n r => rw [piScan] <;> simp [XmlEvent.raw]
  | endTag n r => rw [piScan] <;> simp [XmlEvent.raw]
  | text c r => rw [piScan] <;> simp [XmlEvent.raw]

theorem piScan_pi_notail {c t : String}
    (hts : (splitWhitespace c).getLast? = some t) (htne : ¬t = "end=\"tail\"")
    (r : String) (rest : List XmlEvent) (buf : String) :
    piScan (.pi c r :: rest) buf = piScan rest (buf ++ r) := by
  rw [piScan]
  simp only [hts, htne, if_false, reduceIte]

theorem piScan_tail {c : String}
    (ht : (splitWhitespace c).getLast? = some "end=\"tail\"")
    (r : String) (rest : List XmlEvent) (buf : String) :
    piScan (.pi c r :: rest) buf = some (.ok (buf ++ r), rest) := by
  rw [piScan]
  simp only [ht]
  simp

theorem piScan_run (l : List XmlEvent) (hl : ∀ e ∈ l, notTailMarker e)
    {tailC : String} (ht : (splitWhitespace tailC).getLast? = some "end=\"tail\"")
    (tailR : String) (rest : List XmlEvent) (buf : String) :
    piScan (l ++ .pi tailC tailR :: rest) buf =
      some (.ok (buf ++ (rawsConcat l ++ tailR)), rest) := by
  induction l generalizing buf with
  | nil =>
      rw [List.nil_append, piScan_tail ht]
      simp [rawsConcat]
  | cons e tail ih =>
      have he := hl e (by simp)
      have htail : ∀ x ∈ tail, notTailMarker x := fun x hx => hl x (by simp [hx])
      rw [List.cons_append]
      cases e with
      | pi c r =>
          obtain ⟨t, hts, htne⟩ := he
          rw [piScan_pi_notail hts htne, ih htail]
          simp [rawsConcat, XmlEvent.raw, String.append_assoc]
      | decl r =>
          rw [piScan_skip (by simp), ih htail]
          simp [rawsConcat, XmlEvent.raw, String.append_assoc]
      | doctype r =>
          rw [piScan_skip (by simp), ih htail]
          simp [rawsConcat, XmlEvent.raw, String.append_assoc]
      | start n r =>
          rw [piScan_skip (by simp), ih htail]
          simp [rawsConcat, XmlEvent.raw, String.append_assoc]
      | endTag n r =>
          rw [piScan_skip (by simp), ih htail]
          simp [rawsConcat, XmlEvent.raw, String.append_assoc]
      | text c r =>
          rw [piScan_skip (by simp), ih htail]
          simp [rawsConcat, XmlEvent.raw, String.append_assoc]

theorem deserLoop_inert {e : XmlEvent} (h : inertEvent e = true)
    (g : PatentGrant) (rest : List XmlEvent) :
    deserLoop g (e :: rest) = deserLoop g rest := by
  cases e with
  | start n r =>
      simp only [inertEvent, decide_eq_true_eq] at h
      push_neg at h
      exact deserLoop_otherstart h.1 h.2.1 h.2.2 g r rest
  | endTag n r =>
      simp only [inertEvent, decide_eq_true_eq] at h
      exact deserLoop_end_nonmatch h g r rest
  | text c r => exact deserLoop_other (by simp) (by simp) (by simp) g rest
  | decl r => exact deserLoop_other (by simp) (by simp) (by simp) g rest
  | doctype r => exact deserLoop_other (by simp) (by simp) (by simp) g rest
  | pi c r => simp [inertEvent] at h

theorem deserLoop_inertList (l : List XmlEvent) (h : ∀ e ∈ l, inertEvent e = true)
    (g : PatentGrant) (rest : List XmlEvent) :
    deserLoop g (l ++ rest) = deserLoop g rest := by
  induction l with
  | nil => simp
  | cons e tail ih =>
      rw [List.cons_append, deserLoop_inert (h e (by simp)) g]
      exact ih (fun x hx => h x (by simp [hx]))


theorem psuf_fields {σ : Type} {container : String}
    {reqF optF : List (String × (σ → String → σ))} {fs : List (String × String)}
    (h : ∀ p ∈ fs, (reqF.find? (fun q => q.1 = p.1)).isSome ∨
          (optF.find? (fun q => q.1 = p.1)).isSome) :
    ∀ s : σ, ∃ s' : σ, ∀ (er : String) (rest : List XmlEvent),
      parse_struct_update_from container reqF optF s
        (fs.flatMap fieldEvents ++ .endTag container er :: rest) = (.ok s', rest) := by
  induction fs with
  | nil =>
      intro s
      exact ⟨s, fun er rest => by
        rw [List.flatMap_nil, List.nil_append, psuf_end_match]⟩
  | cons p tail ih =>
      intro s
      have htail : ∀ q ∈ tail,
          (reqF.find? (fun x => x.1 = q.1)).isSome ∨
            (optF.find? (fun x => x.1 = q.1)).isSome :=
        fun q hq => h q (by simp [hq])
      cases hfind : reqF.find? (fun q => q.1 = p.1) with
      | some pr =>
          obtain ⟨s2, hs2⟩ := ih htail (pr.2 s p.2)
          refine ⟨s2, fun er rest => ?_⟩
          rw [List.flatMap_cons, fieldEvents]
          rw [List.append_assoc, List.cons_append, List.cons_append, List.cons_append,
            List.nil_append]
          rw [psuf_req_ok hfind (deser_text_from_field p.1 p.2 "" "" _)]
          exact hs2 er rest
      | none =>
          have hopt : (optF.find? (fun q => q.1 = p.1)).isSome := by
            rcases h p (by simp) with hr | ho
            · rw [hfind] at hr; simp at hr
            · exact ho
          obtain ⟨po, hpo⟩ := Option.isSome_iff_exists.mp hopt
          obtain ⟨s2, hs2⟩ := ih htail (po.2 s p.2)
          refine ⟨s2, fun er rest => ?_⟩
          rw [List.flatMap_cons, fieldEvents]
          rw [List.append_assoc, List.cons_append, List.cons_append, List.cons_append,
            List.nil_append]
          rw [psuf_opt_ok hfind hpo (deser_text_from_field p.1 p.2 "" "" _)]
          exact hs2 er rest


theorem docId_names_found {nm : String} (h : docIdNames.contains nm = true) :
    (docIdReq.find? (fun q => q.1 = nm)).isSome ∨
      (docIdOpt.find? (fun q => q.1 = nm)).isSome := by
  simp [docIdNames] at h
  rcases h with h | h | h | h <;> subst h <;> decide

theorem locarno_names_found {nm : String} (h : locarnoNames.contains nm = true) :
    (locarnoReq.find? (fun q => q.1 = nm)).isSome ∨
      (([] : List (String × (ClassificationLocarno → String → ClassificationLocarno))).find?
        (fun q => q.1 = nm)).isSome := by
  simp [locarnoNames] at h
  rcases h with h | h <;> subst h <;> decide

theorem national_names_found {nm : String} (h : nationalNames.contains nm = true) :
    (nationalReq.find? (fun q => q.1 = nm)).isSome ∨
      (nationalOpt.find? (fun q => q.1 = nm)).isSome := by
  simp [nationalNames] at h
  rcases h with h | h | h | h <;> subst h <;> decide

theorem deser_doc_id_fields {fs : List (String × String)}
    (h : fs.all (fun p => docIdNames.contains p.1) = true) (d : DocumentId) :
    ∃ d' : DocumentId, ∀ (dr er : String) (rest : List XmlEvent),
      deser_doc_id d (.start "document-id" dr ::
          (fs.flatMap fieldEvents ++ .endTag "document-id" er :: rest)) =
        (.ok d', rest) := by
  have hfs : ∀ p ∈ fs, (docIdReq.find? (fun q => q.1 = p.1)).isSome ∨
      (docIdOpt.find? (fun q => q.1 = p.1)).isSome := by
    intro p hp
    exact docId_names_found (by simp only [List.all_eq_true] at h; exact h p hp)
  obtain ⟨d2, hd2⟩ := psuf_fields hfs d
  refine ⟨d2, fun dr er rest => ?_⟩
  rw [deser_doc_id, parse_struct_update]
  simp only [String.reduceEq, reduceIte]
  exact hd2 er rest

theorem biblio_item_consume {it : BiblioItem} (h : biblioItemWF it = true)
    (b : BibliographicDataGrant) :
    ∃ b' : BibliographicDataGrant, ∀ rest : List XmlEvent,
      deser_biblio b (biblioItemEvents it ++ rest) = deser_biblio b' rest := by
  cases it with
  | pubRef fs =>
      simp only [biblioItemWF] at h
      obtain ⟨d2, hd2⟩ := deser_doc_id_fields h b.publication_reference
      refine ⟨{ b with publication_reference := d2 }, fun rest => ?_⟩
      simp only [biblioItemEvents, List.cons_append, List.append_assoc, List.nil_append]
      rw [deser_biblio_pub_step, hd2 "" ""]
      simp [deser_biblio_end_nonmatch]
  | appRef fs =>
      simp only [biblioItemWF] at h
      obtain ⟨d2, hd2⟩ := deser_doc_id_fields h b.application_reference
      refine ⟨{ b with application_reference := d2 }, fun rest => ?_⟩
      simp only [biblioItemEvents, List.cons_append, List.append_assoc, List.nil_append]
      rw [deser_biblio_app_step, hd2 "" ""]
      simp [deser_biblio_end_nonmatch]
  | seriesCode v =>
      refine ⟨{ b with us_application_series_code := v }, fun rest => ?_⟩
      simp only [biblioItemEvents, List.cons_append, List.nil_append]
      rw [deser_biblio_series_step]
      rw [deser_text_field]
  | classLocarno fs =>
      simp only [biblioItemWF] at h
      have hfs : ∀ p ∈ fs, (locarnoReq.find? (fun q => q.1 = p.1)).isSome ∨
          (([] : List (String ×
            (ClassificationLocarno → String → ClassificationLocarno))).find?
            (fun q => q.1 = p.1)).isSome := by
        intro p hp
        exact locarno_names_found (by simp only [List.all_eq_true] at h; exact h p hp)
      obtain ⟨c2, hc2⟩ := psuf_fields hfs b.classification_locarno
      refine ⟨{ b with classification_locarno := c2 }, fun rest => ?_⟩
      simp only [biblioItemEvents, List.cons_append, List.append_assoc, List.nil_append]
      rw [deser_biblio_locarno_step, deser_class_locarno]
      rw [hc2 "" rest]
  | classNational fs =>
      simp only [biblioItemWF] at h
      have hfs : ∀ p ∈ fs, (nationalReq.find? (fun q => q.1 = p.1)).isSome ∨
          (nationalOpt.find? (fun q => q.1 = p.1)).isSome := by
        intro p hp
        exact national_names_found (by simp only [List.all_eq_true] at h; exact h p hp)
      obtain ⟨c2, hc2⟩ := psuf_fields hfs b.classification_national
      refine ⟨{ b with classification_national := c2 }, fun rest => ?_⟩
      simp only [biblioItemEvents, List.cons_append, List.append_assoc, List.nil_append]
      rw [deser_biblio_national_step, deser_class_national]
      rw [hc2 "" rest]

theorem biblio_items_consume {items : List BiblioItem}
    (h : items.all biblioItemWF = true) (b : BibliographicDataGrant) :
    ∃ b' : BibliographicDataGrant, ∀ (er : String) (rest : List XmlEvent),
      deser_biblio b (items.flatMap biblioItemEvents ++
          .endTag "us-bibliographic-data-grant" er :: rest) =
        some (.ok b', rest) := by
  induction items generalizing b with
  | nil =>
      refine ⟨b, fun er rest => ?_⟩
      rw [List.flatMap_nil, List.nil_append, deser_biblio_end_match]
  | cons it tail ih =>
      have hit : biblioItemWF it = true := by
        simp only [List.all_eq_true] at h; exact h it (by simp)
      have htail : tail.all biblioItemWF = true := by
        simp only [List.all_eq_true] at h ⊢; exact fun x hx => h x (by simp [hx])
      obtain ⟨b1, hb1⟩ := biblio_item_consume hit b
      obtain ⟨b2, hb2⟩ := ih htail b1
      refine ⟨b2, fun er rest => ?_⟩
      rw [List.flatMap_cons, List.append_assoc]
      rw [hb1]
      exact hb2 er rest


theorem claimEvents_inert {t : String} {e : XmlEvent} (he : e ∈ claimEvents t) :
    inertEvent e = true := by
  simp [claimEvents] at he
  rcases he with h | h | h | h | h <;> subst h <;> simp [inertEvent]

theorem textEvents_notTail {l : List (String × String)} {e : XmlEvent}
    (he : e ∈ textEvents l) : notTailMarker e := by
  simp [textEvents] at he
  obtain ⟨a, b, hmem, rfl⟩ := he
  simp [notTailMarker]

theorem bodyItem_consume {it : BodyItem} (h : bodyItemWF it = true) (g : PatentGrant) :
    ∃ g' : PatentGrant, ∀ rest : List XmlEvent,
      deserLoop g (bodyItemEvents it ++ rest) = deserLoop g' rest := by
  cases it with
  | textBlock lead leadRaw interior tailC tailR =>
      simp only [bodyItemWF, Bool.and_eq_true, beq_iff_eq] at h
      obtain ⟨hlead, htail⟩ := h
      have hne : splitWhitespace lead ≠ [] := by
        intro hh; rw [hh] at hlead; simp at hlead
      obtain ⟨nm, hnm⟩ : ∃ nm, (splitWhitespace lead).head? = some nm := by
        cases hl : (splitWhitespace lead).head? with
        | some nm => exact ⟨nm, rfl⟩
        | none => exact absurd (List.head?_eq_none_iff.mp hl) hne
      refine ⟨{ g with descriptions := insertDesc g.descriptions nm (rawsConcat (textEvents interior) ++ tailR) }, fun rest => ?_⟩
      simp only [bodyItemEvents, List.cons_append, List.append_assoc, List.nil_append]
      rw [deserLoop_pi_step]
      simp only [deser_top_pi, hnm, hlead, String.reduceEq, reduceIte]
      rw [piScan_run (textEvents interior) (fun e he => textEvents_notTail he) htail]
      simp
  | claimStatement v =>
      refine ⟨{ g with us_claim_statement := v }, fun rest => ?_⟩
      simp only [bodyItemEvents, List.cons_append, List.nil_append]
      rw [deserLoop_claim_statement_step, deser_text_field]
  | claimsList ts =>
      cases ts with
      | nil =>
          refine ⟨g, fun rest => ?_⟩
          simp only [bodyItemEvents, List.flatMap_nil, List.nil_append,
            List.cons_append]
          rw [deserLoop_claims_step, deser_claims_endTag]
      | cons t ts2 =>
          refine ⟨{ g with claims := g.claims ++ [t] }, fun rest => ?_⟩
          simp only [bodyItemEvents, List.flatMap_cons, claimEvents,
            List.cons_append, List.append_assoc, List.nil_append]
          rw [deserLoop_claims_step, deser_claims_claim_step, deser_text_field]
          simp only []
          rw [deser_claims_endTag]
          simp only []
          have hin : ∀ e ∈ ts2.flatMap claimEvents, inertEvent e = true := by
            intro e he
            simp at he
            obtain ⟨t2, ht2, hmem⟩ := he
            exact claimEvents_inert hmem
          rw [deserLoop_inertList (ts2.flatMap claimEvents) hin]
          rw [deserLoop_inert (by simp [inertEvent])]
  | biblio items =>
      simp only [bodyItemWF] at h
      obtain ⟨b2, hb2⟩ := biblio_items_consume h g.us_bibliographic_data_grant
      refine ⟨{ g with us_bibliographic_data_grant := b2 }, fun rest => ?_⟩
      simp only [bodyItemEvents, List.cons_append, List.append_assoc, List.nil_append]
      rw [deserLoop_biblio_step]
      rw [hb2 "" rest]


theorem body_consume {body : List BodyItem} (h : body.all bodyItemWF = true)
    (g : PatentGrant) :
    ∃ g' : PatentGrant, ∀ (er : String) (rest : List XmlEvent),
      deserLoop g (body.flatMap bodyItemEvents ++ .endTag "us-patent-grant" er :: rest) =
        some (.ok g', rest) := by
  induction body generalizing g with
  | nil =>
      refine ⟨g, fun er rest => ?_⟩
      rw [List.flatMap_nil, List.nil_append, deserLoop_end_match]
  | cons it tail ih =>
      have hit : bodyItemWF it = true := by
        simp only [List.all_eq_true] at h; exact h it (by simp)
      have htail : tail.all bodyItemWF = true := by
        simp only [List.all_eq_true] at h ⊢; exact fun x hx => h x (by simp [hx])
      obtain ⟨g1, hg1⟩ := bodyItem_consume hit g
      obtain ⟨g2, hg2⟩ := ih htail g1
      refine ⟨g2, fun er rest => ?_⟩
      rw [List.flatMap_cons, List.append_assoc, hg1]
      exact hg2 er rest

theorem record_consume {body : List BodyItem} (h : recordWF body = true) :
    ∃ g : PatentGrant, ∀ rest : List XmlEvent,
      deser_patent_grant (recordEvents body ++ rest) = some (some (.ok g), rest) := by
  obtain ⟨g, hg⟩ := body_consume (show body.all bodyItemWF = true from h) PatentGrant.default
  refine ⟨g, fun rest => ?_⟩
  simp only [recordEvents, List.cons_append, List.append_assoc, List.nil_append]
  rw [deser_patent_grant]
  simp only [deser_header]
  rw [deserLoop_otherstart (by simp) (by simp) (by simp)]
  rw [hg "" rest]

theorem iterN_succ (n : Nat) (evs : List XmlEvent) :
    iterN (n + 1) evs =
      match deser_patent_grant evs with
      | none => none
      | some (res, rest) =>
          match iterN n rest with
          | none => none
          | some (l, rest') => some (res :: l, rest') := by
  rw [iterN]

theorem iterN_end : iterN 1 [] = some ([none], []) := by
  simp [iterN, deser_patent_grant, deser_header]


theorem lookupDesc_insertDesc (m : List (String × String)) (k v : String) :
    lookupDesc (insertDesc m k v) k = some v := by
  induction m with
  | nil => simp [insertDesc, lookupDesc]
  | cons p t ih =>
      by_cases h : p.1 = k
      · simp [insertDesc, h, lookupDesc]
      · obtain ⟨a, b⟩ := p
        simp only [insertDesc]
        simp only at h
        rw [if_neg h]
        simp [lookupDesc, List.find?, h]
        simpa [lookupDesc] using ih

/-- C1: For every input stream that is a concatenation of N well-formed
records (each a declaration, a doctype, then a complete root element per
the input format), iterating the deserializer yields exactly N `Ok`
records, in input order, followed by a clean end-of-stream signal
(`none`), with no error; the n-th produced record is the one obtained by
deserializing the n-th header-delimited region alone. -/
theorem c1_stream_iteration (rs : List (List BodyItem))
    (h : ∀ r ∈ rs, recordWF r = true) :
    ∃ gs : List PatentGrant,
      gs.length = rs.length ∧
      iterN (rs.length + 1) (rs.flatMap recordEvents) =
        some (gs.map (fun g => some (Except.ok g)) ++ [none], []) ∧
      ∀ (i : Nat) (h1 : i < rs.length) (h2 : i < gs.length),
        deser_patent_grant (recordEvents (rs.get ⟨i, h1⟩)) =
          some (some (.ok (gs.get ⟨i, h2⟩)), []) := by
  induction rs with
  | nil =>
      refine ⟨[], rfl, by simpa using iterN_end, ?_⟩
      intro i h1 h2
      exact absurd h1 (by simp)
  | cons r tail ih =>
      obtain ⟨g, hg⟩ := record_consume (h r (by simp))
      obtain ⟨gs, hlen, hiter, hidx⟩ := ih (fun x hx => h x (by simp [hx]))
      refine ⟨g :: gs, by simp [hlen], ?_, ?_⟩
      · rw [List.flatMap_cons, List.length_cons]
        rw [iterN_succ, hg (tail.flatMap recordEvents)]
        simp only []
        rw [hiter]
        simp
      · intro i h1 h2
        cases i with
        | zero =>
            have := hg []
            rw [List.append_nil] at this
            simpa using this
        | succ j =>
            have hj1 : j < tail.length := by simpa using h1
            have hj2 : j < gs.length := by simpa using h2
            simpa using hidx j hj1 hj2


/-- Concrete two-record stream used to witness `c1_stream_iteration`. -/
def c1rs : List (List BodyItem) :=
  [[BodyItem.claimStatement "a"],
   [BodyItem.biblio
      [BiblioItem.pubRef [("country", "US"), ("kind", "B2")],
       BiblioItem.seriesCode "12",
       BiblioItem.classNational [("country", "US"), ("main-classification", "403")]],
    BodyItem.claimsList ["claim one", "claim two"],
    BodyItem.textBlock "BRFSUM description end=\"lead\"" "?lead?"
      [("some text", "some raw")] "BRFSUM description end=\"tail\"" "?tail?"]]

theorem c1_stream_iteration_witness :
    (∀ r ∈ c1rs, recordWF r = true) ∧
      (∃ gs : List PatentGrant,
        gs.length = c1rs.length ∧
        iterN (c1rs.length + 1) (c1rs.flatMap recordEvents) =
          some (gs.map (fun g => some (Except.ok g)) ++ [none], []) ∧
        ∀ (i : Nat) (h1 : i < c1rs.length) (h2 : i < gs.length),
          deser_patent_grant (recordEvents (c1rs.get ⟨i, h1⟩)) =
            some (some (.ok (gs.get ⟨i, h2⟩)), [])) :=
  ⟨by decide, c1_stream_iteration c1rs (by decide)⟩


/-- C2: the claim says a declaration followed by end-of-input must produce
a header error, not a clean end-of-stream signal; the code instead returns
the clean end-of-stream signal (`None` in the source, both from
`deser_header` and from `deser_patent_grant`), contradicting the claim and
`deser_header`'s own doc comment ("only returns None if there's no
input"). -/
theorem c2_decl_then_eof_yields_end_of_stream (raw : String) :
    deser_header [.decl raw] = (none, []) ∧
      deser_patent_grant [.decl raw] = some (none, []) := by
  constructor
  · simp [deser_header]
  · simp [deser_patent_grant, deser_header]

/-- C3: the claim says end-of-input after a valid header but before the
root's closing end tag must be a fatal error with no partial record; the
code instead breaks out of the dispatch loop on `Eof` and returns
`Some(Ok(partial))` — here the default-initialized record. -/
theorem c3_eof_mid_record_yields_partial_ok (r1 r2 r3 : String) :
    deser_patent_grant [.decl r1, .doctype r2, .start "us-patent-grant" r3] =
      some (some (.ok PatentGrant.default), []) := by
  simp [deser_patent_grant, deser_header, deserLoop, PatentGrant.default]

/-- C4: the claim says a lead marker with no following tail marker before
end-of-input must produce a fatal "unterminated text block" error; the
code's scan loop instead matches `Eof` with `Ok(_) => continue` and
re-reads `Eof` forever (modelled as the divergence marker `none`): no
error value is ever returned. -/
theorem c4_unterminated_text_block_diverges (r1 r2 r3 : String) (buf : String) :
    piScan [] buf = none ∧
      deser_patent_grant
        [.decl r1, .doctype r2, .pi "BRFSUM description end=\"lead\"" r3] = none := by
  have hs : splitWhitespace "BRFSUM description end=\"lead\"" =
      ["BRFSUM", "description", "end=\"lead\""] := by decide
  constructor
  · simp [piScan]
  · rw [deser_patent_grant]
    simp only [deser_header]
    rw [deserLoop_pi_step]
    simp only [deser_top_pi, hs]
    simp [piScan]


/-- The C6 failing input: a record whose claims list holds two claims,
followed by a non-claim sibling (`us-claim-statement`). -/
def c6input : List XmlEvent :=
  [.decl "", .doctype "", .start "us-patent-grant" "",
   .start "claims" "",
   .start "claim" "", .start "claim-text" "", .text "first claim" "",
   .endTag "claim-text" "", .endTag "claim" "",
   .start "claim" "", .start "claim-text" "", .text "second claim" "",
   .endTag "claim-text" "", .endTag "claim" "",
   .endTag "claims" "",
   .start "us-claim-statement" "", .text "stmt" "", .endTag "us-claim-statement" "",
   .endTag "us-patent-grant" ""]

/-- C6: the claim says the claims extractor appends exactly the claim texts
seen before the first non-claim sibling; on a claims list with two claims
the code appends only the first ("first claim"), because the loop `break`s
on the `End(claim)` tag after each claim — contradicting its own comment
("if there's no more claims, exit").  The second claim's events fall
through top-level dispatch and its text is lost; the record still parses. -/
theorem c6_second_claim_lost :
    deser_claims PatentGrant.default
        [.start "claim" "", .start "claim-text" "", .text "first claim" "",
         .endTag "claim-text" "", .endTag "claim" "",
         .start "claim" "", .start "claim-text" "", .text "second claim" "",
         .endTag "claim-text" "", .endTag "claim" "", .endTag "claims" ""] =
      (.ok { claims := ["first claim"] },
        [.start "claim" "", .start "claim-text" "", .text "second claim" "",
         .endTag "claim-text" "", .endTag "claim" "", .endTag "claims" ""]) ∧
    deser_patent_grant c6input =
      some (some (.ok { us_claim_statement := "stmt", claims := ["first claim"] }), []) := by
  constructor
  · rw [deser_claims_claim_step, deser_text_field]
    simp only []
    rw [deser_claims_endTag]
    simp [PatentGrant.default]
  · simp [c6input, deser_patent_grant, deser_header,
      deserLoop_nil, deserLoop_pi_step, deserLoop_claim_statement_step,
      deserLoop_claims_step, deserLoop_biblio_step,
      deserLoop_otherstart, deserLoop_end_match, deserLoop_end_nonmatch, deserLoop_other,
      deser_claims_nil, deser_claims_claim_step,
      deser_claims_inner_otherstart, deser_claims_inner_nonstart, deser_claims_inner_nil,
      deser_claims_nonclaim, deser_claims_nonstart,
      deser_text, deser_text_from, read_text, read_to_end, PatentGrant.default]


/-- C9: round trip of a `publication-reference/document-id` with
country "US", doc-number "1234567", date "20200101" and kind "B2": the
resulting `DocumentId` holds exactly those four values with `kind`
present; omitting the `kind` element leaves `kind` absent (`none`) while
the other three stay populated. -/
theorem c9_doc_id_round_trip :
    deser_biblio {}
        [.start "publication-reference" "", .start "document-id" "",
         .start "country" "", .text "US" "", .endTag "country" "",
         .start "doc-number" "", .text "1234567" "", .endTag "doc-number" "",
         .start "date" "", .text "20200101" "", .endTag "date" "",
         .start "kind" "", .text "B2" "", .endTag "kind" "",
         .endTag "document-id" "", .endTag "publication-reference" "",
         .endTag "us-bibliographic-data-grant" ""] =
      some (.ok { publication_reference :=
        { country := "US", doc_number := "1234567", kind := some "B2",
          date := "20200101" } }, []) ∧
    deser_biblio {}
        [.start "publication-reference" "", .start "document-id" "",
         .start "country" "", .text "US" "", .endTag "country" "",
         .start "doc-number" "", .text "1234567" "", .endTag "doc-number" "",
         .start "date" "", .text "20200101" "", .endTag "date" "",
         .endTag "document-id" "", .endTag "publication-reference" "",
         .endTag "us-bibliographic-data-grant" ""] =
      some (.ok { publication_reference :=
        { country := "US", doc_number := "1234567", kind := none,
          date := "20200101" } }, []) := by
  constructor <;>
    simp [deser_biblio_pub_step, deser_biblio_end_nonmatch, deser_biblio_end_match,
      deser_doc_id, parse_struct_update, psuf_start_step, psuf_end_match,
      psuf_end_nonmatch, psuf_nonstart, psuf_nil, docIdReq, docIdOpt,
      deser_text_from, deser_text, read_text, read_to_end, List.find?]


/-- C10 counterexample: the claim says any event that is neither an
element start nor the container's matching end tag stops the mapper with
success, leaving unfilled slots at their zero value.  A non-matching end
tag (`</other>`) is such an event, yet the mapper does not stop there: it
skips it, continues, and fills `country` with "US" from the following
element — so the returned state is not the untouched zero state the claim
requires. -/
theorem c10_counterexample :
    deser_class_national {}
        [.endTag "other" "", .start "country" "", .text "US" "",
         .endTag "country" "", .endTag "classification-national" ""] =
      (.ok { country := "US" }, []) ∧
    ({ country := "US" } : ClassificationNational) ≠ {} := by
  constructor
  · simp [deser_class_national, psuf_start_step, psuf_end_match, psuf_end_nonmatch,
      psuf_nonstart, psuf_nil, nationalReq, nationalOpt,
      deser_text_from, deser_text, read_text, read_to_end, List.find?]
  · decide

/-- C10 amended: in a nested field-container parse, an event that is
neither an element start nor an element end tag (text, processing
instruction, declaration, doctype) stops the mapper successfully with the
state accumulated so far (unfilled required slots keep their zero value,
unfilled optional slots stay absent), and so does end-of-input; a
non-matching end tag, however, is skipped and the loop continues. -/
theorem c10_amended_truncation_is_success {σ : Type} (container : String)
    (reqF optF : List (String × (σ → String → σ))) (s : σ) {e : XmlEvent}
    (hs : ∀ n raw, e ≠ XmlEvent.start n raw)
    (he : ∀ n raw, e ≠ XmlEvent.endTag n raw)
    {n : String} (hn : ¬n = container) (r : String) (rest : List XmlEvent) :
    parse_struct_update_from container reqF optF s (e :: rest) = (.ok s, rest) ∧
    parse_struct_update_from container reqF optF s [] = (.ok s, []) ∧
    parse_struct_update_from container reqF optF s (.endTag n r :: rest) =
      parse_struct_update_from container reqF optF s rest :=
  ⟨psuf_nonstart hs he s rest, psuf_nil s, psuf_end_nonmatch hn s r rest⟩

/-- Witness for `c10_amended_truncation_is_success` at a concrete input. -/
theorem c10_amended_witness :
    (∀ n raw, XmlEvent.text "x" "x" ≠ XmlEvent.start n raw) ∧
    (∀ n raw, XmlEvent.text "x" "x" ≠ XmlEvent.endTag n raw) ∧
    (¬"other" = "classification-national") ∧
    (parse_struct_update_from "classification-national" nationalReq nationalOpt
        ({} : ClassificationNational) [.text "x" "x"] = (.ok {}, []) ∧
      parse_struct_update_from "classification-national" nationalReq nationalOpt
        ({} : ClassificationNational) [] = (.ok {}, []) ∧
      parse_struct_update_from "classification-national" nationalReq nationalOpt
        ({} : ClassificationNational) [.endTag "other" "x"] =
        parse_struct_update_from "classification-national" nationalReq nationalOpt
          ({} : ClassificationNational) []) :=
  ⟨by simp, by simp, by simp,
    c10_amended_truncation_is_success "classification-national" nationalReq nationalOpt
      {} (by simp) (by simp) (by simp) "x" []⟩


/-- C5 counterexample: the claim says a complete lead/tail pair for a
different logical name inside a text block is captured as literal content
and extraction ends only at the enclosing block's own tail marker.  Here a
"DETDESC" block contains a complete "BRFSUM" pair; extraction terminates
at the BRFSUM tail: the text stored under "DETDESC" stops there (the
content "outer rest" after the inner pair is not captured), and the
enclosing block's own tail marker is left unconsumed in the stream. -/
theorem c5_counterexample :
    deser_top_pi "DETDESC description end=\"lead\"" PatentGrant.default
        [.pi "BRFSUM summary end=\"lead\"" "?bl?", .text "inner" "inner",
         .pi "BRFSUM summary end=\"tail\"" "?bt?", .text "outer rest" "outer rest",
         .pi "DETDESC description end=\"tail\"" "?dt?"] =
      some (.ok { descriptions := [("DETDESC", "?bl?inner?bt?")] },
        [.text "outer rest" "outer rest",
         .pi "DETDESC description end=\"tail\"" "?dt?"]) ∧
    lookupDesc [("DETDESC", "?bl?inner?bt?")] "DETDESC" ≠
      some "?bl?inner?bt?outer rest" := by
  constructor
  · have h1 : splitWhitespace "DETDESC description end=\"lead\"" =
        ["DETDESC", "description", "end=\"lead\""] := by decide
    have h2 : splitWhitespace "BRFSUM summary end=\"lead\"" =
        ["BRFSUM", "summary", "end=\"lead\""] := by decide
    have h3 : splitWhitespace "BRFSUM summary end=\"tail\"" =
        ["BRFSUM", "summary", "end=\"tail\""] := by decide
    simp only [deser_top_pi, h1]
    rw [piScan_pi_notail (by rw [h2]; rfl) (by decide)]
    rw [piScan_skip (by simp)]
    rw [piScan_tail (by rw [h3]; rfl)]
    simp [insertDesc, PatentGrant.default, XmlEvent.raw]
  · simp [lookupDesc, List.find?]

/-- C5 amended: tail matching is role-based only.  Inside a text block,
any event that is not a tail-role marker — including a lead marker of an
unrelated section — is captured as literal content, but the first
processing instruction whose last token is `end="tail"` terminates the
extraction regardless of its logical name; the stored text is the
accumulated raw bytes up to and including that terminating marker. -/
theorem c5_amended_first_tail_terminates {lead : String} {nm : String}
    (hname : (splitWhitespace lead).head? = some nm)
    (hlead : (splitWhitespace lead).getLast? = some "end=\"lead\"")
    (l : List XmlEvent) (hl : ∀ e ∈ l, notTailMarker e)
    {tailC : String} (ht : (splitWhitespace tailC).getLast? = some "end=\"tail\"")
    (tailR : String) (g : PatentGrant) (rest : List XmlEvent) :
    deser_top_pi lead g (l ++ .pi tailC tailR :: rest) =
      some (.ok { g with descriptions := insertDesc g.descriptions nm (rawsConcat l ++ tailR) }, rest) := by
  simp only [deser_top_pi, hname, hlead, String.reduceEq, reduceIte]
  rw [piScan_run l hl ht]
  simp

/-- Witness for `c5_amended_first_tail_terminates`: the interior holds a
complete unrelated pair ("BRFSUM" lead and a first tail of a different
name than the enclosing "DETDESC" lead), and extraction stops at it. -/
theorem c5_amended_witness :
    ((splitWhitespace "DETDESC description end=\"lead\"").head? = some "DETDESC") ∧
    ((splitWhitespace "DETDESC description end=\"lead\"").getLast? =
      some "end=\"lead\"") ∧
    (∀ e ∈ [XmlEvent.pi "BRFSUM summary end=\"lead\"" "?bl?",
            XmlEvent.text "inner" "inner"], notTailMarker e) ∧
    ((splitWhitespace "BRFSUM summary end=\"tail\"").getLast? =
      some "end=\"tail\"") ∧
    deser_top_pi "DETDESC description end=\"lead\"" PatentGrant.default
        ([XmlEvent.pi "BRFSUM summary end=\"lead\"" "?bl?",
          XmlEvent.text "inner" "inner"] ++
          .pi "BRFSUM summary end=\"tail\"" "?bt?" ::
            [XmlEvent.pi "DETDESC description end=\"tail\"" "?dt?"]) =
      some (.ok { PatentGrant.default with descriptions := insertDesc PatentGrant.default.descriptions "DETDESC" (rawsConcat [XmlEvent.pi "BRFSUM summary end=\"lead\"" "?bl?", XmlEvent.text "inner" "inner"] ++ "?bt?") },
        [XmlEvent.pi "DETDESC description end=\"tail\"" "?dt?"]) :=
  ⟨by decide, by decide,
    by intro e he; fin_cases he <;> simp [notTailMarker] <;> decide,
    by decide,
    c5_amended_first_tail_terminates (by decide) (by decide) _
      (by intro e he; fin_cases he <;> simp [notTailMarker] <;> decide)
      (by decide) "?bt?" PatentGrant.default _⟩


/-- C7 counterexample: the claim says the stored text is exactly the raw
byte span lying between the lead marker and the terminating tail marker.
The byte-collection happens inside `read_event`, which appends the bytes
of every event it reads — including the read that returns the terminating
tail instruction — so the stored string also carries the tail marker's own
bytes at its end, not just the span between the markers. -/
theorem c7_counterexample :
    deser_top_pi "BRFSUM description end=\"lead\"" PatentGrant.default
        [.text "inner markup" "inner <b>markup</b>",
         .pi "BRFSUM description end=\"tail\"" "?BRFSUM description end=\"tail\"?"] =
      some (.ok { descriptions :=
        [("BRFSUM", "inner <b>markup</b>?BRFSUM description end=\"tail\"?")] }, []) ∧
    lookupDesc [("BRFSUM", "inner <b>markup</b>?BRFSUM description end=\"tail\"?")]
        "BRFSUM" ≠ some "inner <b>markup</b>" := by
  constructor
  · have h1 : splitWhitespace "BRFSUM description end=\"lead\"" =
        ["BRFSUM", "description", "end=\"lead\""] := by decide
    have h3 : splitWhitespace "BRFSUM description end=\"tail\"" =
        ["BRFSUM", "description", "end=\"tail\""] := by decide
    simp only [deser_top_pi, h1]
    rw [piScan_skip (by simp)]
    rw [piScan_tail (by rw [h3]; rfl)]
    simp [insertDesc, PatentGrant.default, XmlEvent.raw]
  · simp [lookupDesc, List.find?]

/-- C7 amended: for a recognized lead marker, the text stored under the
marker's logical name is the verbatim concatenation of the raw bytes of
every event read during the scan — the span between the markers (embedded
markup preserved literally, never re-parsed as XML) followed by the raw
bytes of the terminating tail instruction itself, which the event reader
appends to the capture buffer before the marker is recognized. -/
theorem c7_amended_verbatim_capture {lead : String} {nm : String}
    (hname : (splitWhitespace lead).head? = some nm)
    (hlead : (splitWhitespace lead).getLast? = some "end=\"lead\"")
    (l : List XmlEvent) (hl : ∀ e ∈ l, notTailMarker e)
    {tailC : String} (ht : (splitWhitespace tailC).getLast? = some "end=\"tail\"")
    (tailR : String) (g : PatentGrant) (rest : List XmlEvent) :
    ∃ g' : PatentGrant,
      deser_top_pi lead g (l ++ .pi tailC tailR :: rest) = some (.ok g', rest) ∧
      lookupDesc g'.descriptions nm = some (rawsConcat l ++ tailR) := by
  refine ⟨{ g with descriptions := insertDesc g.descriptions nm (rawsConcat l ++ tailR) }, ?_, ?_⟩
  · simp only [deser_top_pi, hname, hlead, String.reduceEq, reduceIte]
    rw [piScan_run l hl ht]
    simp
  · exact lookupDesc_insertDesc g.descriptions nm (rawsConcat l ++ tailR)

/-- Witness for `c7_amended_verbatim_capture` at a concrete input whose
interior raw bytes hold embedded markup. -/
theorem c7_amended_witness :
    ((splitWhitespace "BRFSUM description end=\"lead\"").head? = some "BRFSUM") ∧
    ((splitWhitespace "BRFSUM description end=\"lead\"").getLast? =
      some "end=\"lead\"") ∧
    (∀ e ∈ [XmlEvent.text "inner markup" "inner <b>markup</b>"], notTailMarker e) ∧
    ((splitWhitespace "BRFSUM description end=\"tail\"").getLast? =
      some "end=\"tail\"") ∧
    (∃ g' : PatentGrant,
      deser_top_pi "BRFSUM description end=\"lead\"" PatentGrant.default
          ([XmlEvent.text "inner markup" "inner <b>markup</b>"] ++
            .pi "BRFSUM description end=\"tail\"" "?tail?" :: []) =
        some (.ok g', []) ∧
      lookupDesc g'.descriptions "BRFSUM" =
        some (rawsConcat [XmlEvent.text "inner markup" "inner <b>markup</b>"] ++
          "?tail?")) :=
  ⟨by decide, by decide, by intro e he; fin_cases he <;> simp [notTailMarker],
    by decide,
    c7_amended_verbatim_capture (by decide) (by decide) _
      (by intro e he; fin_cases he <;> simp [notTailMarker])
      (by decide) "?tail?" PatentGrant.default []⟩


theorem docId_find_none {n : String} (h : docIdNames.contains n = false) :
    docIdReq.find? (fun q => q.1 = n) = none ∧
      docIdOpt.find? (fun q => q.1 = n) = none := by
  simp [docIdNames] at h
  constructor
  · rw [List.find?_eq_none]
    intro x hx
    simp [docIdReq] at hx
    rcases hx with rfl | rfl | rfl
    · simp only [decide_eq_true_eq]
      exact fun hh => h.1 hh.symm
    · simp only [decide_eq_true_eq]
      exact fun hh => h.2.1 hh.symm
    · simp only [decide_eq_true_eq]
      exact fun hh => h.2.2.1 hh.symm
  · rw [List.find?_eq_none]
    intro x hx
    simp [docIdOpt] at hx
    subst hx
    simp only [decide_eq_true_eq]
    exact fun hh => h.2.2.2 hh.symm

theorem locarno_find_none {n : String} (h : locarnoNames.contains n = false) :
    locarnoReq.find? (fun q => q.1 = n) = none := by
  simp [locarnoNames] at h
  rw [List.find?_eq_none]
  intro x hx
  simp [locarnoReq] at hx
  rcases hx with rfl | rfl
  · simp only [decide_eq_true_eq]
    exact fun hh => h.1 hh.symm
  · simp only [decide_eq_true_eq]
    exact fun hh => h.2 hh.symm

theorem national_find_none {n : String} (h : nationalNames.contains n = false) :
    nationalReq.find? (fun q => q.1 = n) = none ∧
      nationalOpt.find? (fun q => q.1 = n) = none := by
  simp [nationalNames] at h
  constructor
  · rw [List.find?_eq_none]
    intro x hx
    simp [nationalReq] at hx
    rcases hx with rfl | rfl | rfl
    · simp only [decide_eq_true_eq]
      exact fun hh => h.1 hh.symm
    · simp only [decide_eq_true_eq]
      exact fun hh => h.2.1 hh.symm
    · simp only [decide_eq_true_eq]
      exact fun hh => h.2.2.1 hh.symm
  · rw [List.find?_eq_none]
    intro x hx
    simp [nationalOpt] at hx
    subst hx
    simp only [decide_eq_true_eq]
    exact fun hh => h.2.2.2 hh.symm

/-- C8: in each nested field container (document-id via the wrapping
mapper, classification-locarno, classification-national), a child element
start whose name is in neither that container's required nor optional
slot set is a fatal error whose message names both the offending element
and the enclosing container.  Each container's conclusion depends only on
its own schema, so names that belong to a different container's schema
(cross-schema drift) are covered. -/
theorem c8_unrecognized_child_is_fatal
    (d : DocumentId) (cl : ClassificationLocarno) (cn : ClassificationNational)
    (dr r : String) (rest : List XmlEvent) :
    (∀ n : String, docIdNames.contains n = false →
      deser_doc_id d (.start "document-id" dr :: .start n r :: rest) =
        (.error (.deser ("unrecognized element Ok(\"" ++ n ++ "\") in " ++ "document-id")),
          rest)) ∧
    (∀ n : String, locarnoNames.contains n = false →
      deser_class_locarno cl (.start n r :: rest) =
        (.error (.deser
          ("unrecognized element Ok(\"" ++ n ++ "\") in " ++ "classification-locarno")),
          rest)) ∧
    (∀ n : String, nationalNames.contains n = false →
      deser_class_national cn (.start n r :: rest) =
        (.error (.deser
          ("unrecognized element Ok(\"" ++ n ++ "\") in " ++ "classification-national")),
          rest)) ∧
    (∀ n container : String,
      ∃ pre mid : String,
        "unrecognized element Ok(\"" ++ n ++ "\") in " ++ container =
          pre ++ n ++ (mid ++ container)) := by
  refine ⟨?_, ?_, ?_, ?_⟩
  · intro n hd
    obtain ⟨hd1, hd2⟩ := docId_find_none hd
    rw [deser_doc_id, parse_struct_update]
    simp only [String.reduceEq, reduceIte]
    rw [psuf_unrecognized hd1 hd2]
  · intro n hl
    have hl1 := locarno_find_none hl
    rw [deser_class_locarno]
    rw [psuf_unrecognized hl1 (by simp)]
  · intro n hn
    obtain ⟨hn1, hn2⟩ := national_find_none hn
    rw [deser_class_national]
    rw [psuf_unrecognized hn1 hn2]
  · intro n container
    exact ⟨"unrecognized element Ok(\"", "\") in ", by simp [String.append_assoc]⟩

/-- Witness for `c8_unrecognized_child_is_fatal`, exercising cross-schema
drift: an `edition` child (a locarno name) inside document-id and inside
classification-national, and a `country` child (a document-id and
national name) inside classification-locarno. -/
theorem c8_witness :
    (docIdNames.contains "edition" = false) ∧
    (locarnoNames.contains "country" = false) ∧
    (nationalNames.contains "edition" = false) ∧
    (deser_doc_id {} [.start "document-id" "", .start "edition" ""] =
      (.error (.deser ("unrecognized element Ok(\"" ++ "edition" ++ "\") in " ++
        "document-id")), [])) ∧
    (deser_class_locarno {} [.start "country" ""] =
      (.error (.deser ("unrecognized element Ok(\"" ++ "country" ++ "\") in " ++
        "classification-locarno")), [])) ∧
    (deser_class_national {} [.start "edition" ""] =
      (.error (.deser ("unrecognized element Ok(\"" ++ "edition" ++ "\") in " ++
        "classification-national")), [])) :=
  ⟨by decide, by decide, by decide,
    (c8_unrecognized_child_is_fatal {} {} {} "" "" []).1 "edition" (by decide),
    (c8_unrecognized_child_is_fatal {} {} {} "" "" []).2.1 "country" (by decide),
    (c8_unrecognized_child_is_fatal {} {} {} "" "" []).2.2.1 "edition" (by decide)⟩


end Uspto
